import Mathlib

/-!
Verification of the repository-configuration normalization engine
(`plugins/filter/normalize_repositories.py`).

We shallowly embed the Python data model: a value is None, a bool, an int,
a string, a list, or a dict.  Dicts are embedded as insertion-ordered
association lists, observed through `objGet` (first binding wins, as in a
Python dict, which cannot hold duplicate keys).  Mutation of a dict is
embedded as state passing: each Python statement that mutates a dict becomes
a function from the old value to the new one.  Python exceptions become
`Except String`, carrying the exception message.
-/

set_option maxHeartbeats 1000000

/-- A Python value as used by the normalization filter. -/
inductive Value where
  | null
  | bool (b : Bool)
  | int (n : Int)
  | str (s : String)
  | list (xs : List Value)
  | obj (fields : List (String × Value))
deriving Repr

mutual

/-- Structural equality test on values (Python `==` on these shapes). -/
def beqValue : Value → Value → Bool
  | .null, .null => true
  | .bool a, .bool b => a == b
  | .int a, .int b => a == b
  | .str a, .str b => a == b
  | .list xs, .list ys => beqValueList xs ys
  | .obj fs, .obj gs => beqValueFields fs gs
  | _, _ => false

def beqValueList : List Value → List Value → Bool
  | [], [] => true
  | x :: xs, y :: ys => beqValue x y && beqValueList xs ys
  | _, _ => false

def beqValueFields :
    List (String × Value) → List (String × Value) → Bool
  | [], [] => true
  | (k, v) :: xs, (l, w) :: ys =>
      k == l && beqValue v w && beqValueFields xs ys
  | _, _ => false

end

instance : BEq Value := ⟨beqValue⟩

namespace Value

/-- Python truthiness: `None`, `False`, `0`, `""`, `[]` and an empty dict are
falsy; everything else is truthy. -/
def truthy : Value → Bool
  | null => false
  | bool b => b
  | int n => n != 0
  | str s => s != ""
  | list xs => !xs.isEmpty
  | obj fs => !fs.isEmpty

/-- `isinstance(v, dict)`. -/
def isObj : Value → Bool
  | obj _ => true
  | _ => false

end Value

/-- Lookup in a dict: the first binding for the key (a Python dict holds at
most one binding per key, so the first is the only one). -/
def objGet (fs : List (String × Value)) (k : String) : Option Value :=
  match fs with
  | [] => none
  | (k', v) :: rest => if k' == k then some v else objGet rest k

/-- `d[k] = v` on a dict: replace the value of an existing key in place
(Python dicts keep the key position on update), or append a new key. -/
def objSet (fs : List (String × Value)) (k : String) (v : Value) :
    List (String × Value) :=
  match fs with
  | [] => [(k, v)]
  | (k', v') :: rest =>
      if k' == k then (k, v) :: rest else (k', v') :: objSet rest k v

/-- `d.pop(k, None)` on a dict: afterwards the key is absent.  (On an
association list embedding a dict this removes every binding of the key.) -/
def objRemove (fs : List (String × Value)) (k : String) :
    List (String × Value) :=
  match fs with
  | [] => []
  | (k', v) :: rest =>
      if k' == k then objRemove rest k else (k', v) :: objRemove rest k

/-- `k in d` on a dict. -/
def objHasKey (fs : List (String × Value)) (k : String) : Bool :=
  (objGet fs k).isSome

/-- The single-quote character, used in Python error messages. -/
def squote : String := String.singleton (Char.ofNat 39)

mutual

/-- Python `repr` of a value (dict braces written escaped). -/
def reprV : Value → String
  | Value.null => "None"
  | Value.bool b => if b then "True" else "False"
  | Value.int n => toString n
  | Value.str s => squote ++ s ++ squote
  | Value.list xs => "[" ++ reprVList xs ++ "]"
  | Value.obj fs => "\x7b" ++ reprVFields fs ++ "\x7d"

/-- Comma-separated `repr`s of the elements of a list. -/
def reprVList : List Value → String
  | [] => ""
  | [x] => reprV x
  | x :: xs => reprV x ++ ", " ++ reprVList xs

/-- Comma-separated `repr`s of the entries of a dict. -/
def reprVFields : List (String × Value) → String
  | [] => ""
  | [(k, v)] => squote ++ k ++ squote ++ ": " ++ reprV v
  | (k, v) :: xs =>
      squote ++ k ++ squote ++ ": " ++ reprV v ++ ", " ++ reprVFields xs

end

/-- Python `str` of a value (as rendered inside an f-string). -/
def pyStr : Value → String
  | Value.str s => s
  | v => reprV v

/-- Is the first character list a prefix of the second? -/
def charsPrefixOf : List Char → List Char → Bool
  | [], _ => true
  | _ :: _, [] => false
  | a :: as, b :: bs => a == b && charsPrefixOf as bs

/-- Is the first character list a contiguous segment of the second?
(Python substring test `needle in hay`.) -/
def charsInfixOf (needle hay : List Char) : Bool :=
  match hay with
  | [] => needle.isEmpty
  | _ :: rest => charsPrefixOf needle hay || charsInfixOf needle rest

/-- Python `k in v` for the container shapes the filter can meet: key test on
a dict, substring test on a string, membership on a list; a `TypeError` on
scalars. -/
def pyIn (k : String) (v : Value) : Except String Bool :=
  match v with
  | Value.obj fs => .ok (objHasKey fs k)
  | Value.str s => .ok (charsInfixOf k.toList s.toList)
  | Value.list xs => .ok (xs.contains (Value.str k))
  | _ => .error "TypeError: argument is not iterable"

/-- `key_path.split(".")` on the character list: split at every dot, keeping
empty segments, so the result is always non-empty. -/
def splitDotChars : List Char → List (List Char)
  | [] => [[]]
  | c :: rest =>
      if c == Char.ofNat 46 then [] :: splitDotChars rest
      else
        match splitDotChars rest with
        | g :: gs => (c :: g) :: gs
        | [] => [[c]]

/-- `key_path.split(".")`: the dot-delimited segments of a path string. -/
def splitPath (s : String) : List String :=
  (splitDotChars s.toList).map (fun g => String.mk g)

/-- `v.get(k, default)`: an `AttributeError` when `v` is not a dict. -/
def dictGet (v : Value) (k : String) (default : Value) :
    Except String Value :=
  match v with
  | Value.obj fs => .ok ((objGet fs k).getD default)
  | _ => .error "AttributeError: object has no attribute get"

/-- `get_nested_value`, inner loop over the already-split key path:
`for key in keys: if isinstance(data, dict) and key in data: data = data[key]
else: return default`. -/
def getNestedAux (data : Value) (keys : List String) (default : Value) :
    Value :=
  match keys, data with
  | [], d => d
  | k :: ks, Value.obj fs =>
      match objGet fs k with
      | some v => getNestedAux v ks default
      | none => default
  | _ :: _, _ => default

/-- `get_nested_value(data, key_path, default=None)`: retrieve a nested value
using a dotted key path; the default the moment a key is missing or the
current value is not a dict.  Never raises. -/
def get_nested_value (data : Value) (key_path : String)
    (default : Value := Value.null) : Value :=
  getNestedAux data (splitPath key_path) default

/-- `set_nested_value`, inner loop over the already-split key path:
`for key in keys[:-1]: data = data.setdefault(key, dict())` then
`data[keys[-1]] = value`.  A non-dict met along the path raises (Python:
`AttributeError` on `setdefault` or `TypeError` on item assignment); a raise
happens before any key was inserted, so the raising run leaves the data
unchanged. -/
def setPathAux (data : Value) (keys : List String) (value : Value) :
    Except String Value :=
  match keys, data with
  | [k], Value.obj fs => .ok (Value.obj (objSet fs k value))
  | k :: ks, Value.obj fs => do
      let child ← setPathAux ((objGet fs k).getD (Value.obj [])) ks value
      .ok (Value.obj (objSet fs k child))
  | _, _ => .error "TypeError: item assignment on a non-dict"

/-- `set_nested_value(data, key_path, value)`: the first component is the
mutated data; the second is the Python return value, which is `None` because
the function body contains no return statement. -/
def set_nested_value (data : Value) (key_path : String) (value : Value) :
    Except String (Value × Value) :=
  (setPathAux data (splitPath key_path) value).map
    (fun d => (d, Value.null))

/-- The body of `merge_dict` iterating over `source.items()`:
`if isinstance(value, dict) and key in destination and
isinstance(destination[key], dict): merge_dict(value, destination[key])
else: destination[key] = value`. -/
def mergeItems (items : List (String × Value)) (destination : Value) :
    Except String Value :=
  match items, destination with
  | [], dst => .ok dst
  | (k, v) :: rest, Value.obj df =>
      match v, objGet df k with
      | Value.obj vf, some (Value.obj cf) => do
          let m ← mergeItems vf (Value.obj cf)
          mergeItems rest (Value.obj (objSet df k m))
      | _, _ => mergeItems rest (Value.obj (objSet df k v))
  | _ :: _, _ => .error "TypeError: item assignment on a non-dict"

/-- `merge_dict(source, destination)`: recursively merge `source` into
`destination` (a key collision between two dicts recurses, otherwise the
source entry overwrites) and return `destination`. -/
def merge_dict (source destination : Value) : Except String Value :=
  match source with
  | Value.obj items => mergeItems items destination
  | _ => .error "AttributeError: object has no attribute items"

example : objGet [("a", Value.int 1), ("b", Value.int 2)] "b" =
    some (Value.int 2) := rfl

example : get_nested_value
    (Value.obj [("a", Value.obj [("b", Value.str "x")])]) "a.b" =
    Value.str "x" := rfl

example : set_nested_value (Value.obj []) "a.b" (Value.str "v") =
    .ok (Value.obj [("a", Value.obj [("b", Value.str "v")])], Value.null) :=
  rfl

example : merge_dict
    (Value.obj [("x", Value.int 1), ("n", Value.obj [("a", Value.int 2)])])
    (Value.obj [("n", Value.obj [("b", Value.int 3)]), ("y", Value.int 4)]) =
    .ok (Value.obj [("n", Value.obj [("b", Value.int 3), ("a", Value.int 2)]),
                    ("y", Value.int 4), ("x", Value.int 1)]) := rfl

/-- `repo.get("name", "unknown")` rendered into an f-string.  (The claims
only concern dict-shaped repository records; on a non-dict record the Python
error handler would itself raise.) -/
def repoName (repo : Value) : String :=
  match repo with
  | Value.obj fs =>
      match objGet fs "name" with
      | some v => pyStr v
      | none => "unknown"
  | _ => "unknown"

/-- The `ValueError` message for an incomplete NTLM authentication block. -/
def ntlmErrMsg (repo : Value) : String :=
  "Repository " ++ squote ++ repoName repo ++ squote ++
    " is missing required fields for NTLM authentication (username, " ++
    "password, ntlmHost, ntlmDomain)."

/-- The `ValueError` message for an incomplete username authentication
block. -/
def userErrMsg (repo : Value) : String :=
  "Repository " ++ squote ++ repoName repo ++ squote ++
    " is missing required fields for username authentication (username " ++
    "and password)."

/-- The fix preceding step 4 of `merge_defaults`: for a `proxy` repository
whose accumulated defaults hold `httpClient`, replace an
`authentication` entry that is `None` (or absent, since `.get` defaults to
`None`) by an empty dict. -/
def fixAuthNone (repo_type : String) (normalized : Value) :
    Except String Value :=
  if repo_type == "proxy" then do
    let present ← pyIn "httpClient" normalized
    if present then
      match normalized with
      | Value.obj nf =>
          match objGet nf "httpClient" with
          | some hc => do
              let auth ← dictGet hc "authentication" Value.null
              match auth, hc with
              | Value.null, Value.obj hcf =>
                  .ok (Value.obj (objSet nf "httpClient"
                        (Value.obj (objSet hcf "authentication"
                          (Value.obj [])))))
              | _, _ => .ok normalized
          | none => .error "KeyError: httpClient"
      | _ => .error "TypeError: object is not subscriptable"
    else .ok normalized
  else .ok normalized

/-- Resolution of the target field for one `legacy_field_map` entry: for
the keys `content_disposition` and `remove_quarantined` with a dict-valued
target, resolve `target[repo_format][repo_type]`, yielding `none` (Python:
`continue`) when the (format, type) pair is not in the mapping; any other
entry's target is the mapped value itself. -/
def legacyTarget (repo_type repo_format : String) (legacy_key : String)
    (normalized_key : Value) : Except String (Option Value) :=
  if (legacy_key == "content_disposition" ||
      legacy_key == "remove_quarantined") && normalized_key.isObj then
    match normalized_key with
    | Value.obj mkf => do
        let b1 ← pyIn repo_format normalized_key
        if b1 then
          let sub := (objGet mkf repo_format).getD Value.null
          let b2 ← pyIn repo_type sub
          if b2 then
            match sub with
            | Value.obj subf =>
                pure (some ((objGet subf repo_type).getD Value.null))
            | _ => Except.error "TypeError: indices must be integers"
          else pure none
        else pure none
    | _ => pure (some normalized_key)
  else pure (some normalized_key)

/-- One iteration of step 4 of `merge_defaults` over an entry
`(legacy_key, normalized_key)`: resolve the target field, then write the
legacy value, if present (non-null) in the caller record, to the target
path; a `none` target means `continue`. -/
def legacyStep (repo : Value) (repo_type repo_format : String)
    (normalized : Value) (legacy_key : String) (normalized_key : Value) :
    Except String Value := do
  let target? ← legacyTarget repo_type repo_format legacy_key normalized_key
  match target? with
  | none => .ok normalized
  | some target_field =>
      match get_nested_value repo legacy_key with
      | Value.null => .ok normalized
      | value =>
          match target_field with
          | Value.str p => (set_nested_value normalized p value).map Prod.fst
          | _ => .error "AttributeError: object has no attribute split"

/-- The step-4 loop over the entries of `legacy_field_map`, in insertion
order. -/
def legacyItems (repo : Value) (repo_type repo_format : String)
    (entries : List (String × Value)) (normalized : Value) :
    Except String Value :=
  match entries with
  | [] => .ok normalized
  | (k, v) :: rest => do
      let n ← legacyStep repo repo_type repo_format normalized k v
      legacyItems repo repo_type repo_format rest n

/-- Step 4 of `merge_defaults`: iterate `legacy_field_map.items()` in
insertion order. -/
def legacyLoop (repo : Value) (repo_type repo_format : String)
    (legacy_field_map : Value) (normalized : Value) : Except String Value :=
  match legacy_field_map with
  | Value.obj entries =>
      legacyItems repo repo_type repo_format entries normalized
  | _ => .error "AttributeError: object has no attribute items"

/-- Step 6 of `merge_defaults`: for a `proxy` repository, read the
authentication block; when it is truthy, infer and write its `type`
discriminator, raising on incomplete NTLM or username credentials. -/
def authInference (repo : Value) (repo_type : String) (normalized : Value) :
    Except String Value :=
  if repo_type == "proxy" then
    match normalized with
    | Value.obj nf =>
        match (objGet nf "httpClient").getD (Value.obj []) with
        | Value.obj hcf =>
            let auth_block := (objGet hcf "authentication").getD (Value.obj [])
            if auth_block.truthy then
              match auth_block with
              | Value.obj af => do
                  let username := (objGet af "username").getD Value.null
                  let password := (objGet af "password").getD Value.null
                  let ntlm_host := (objGet af "ntlmHost").getD Value.null
                  let ntlm_domain := (objGet af "ntlmDomain").getD Value.null
                  let af' ←
                    if ntlm_host.truthy || ntlm_domain.truthy then
                      if !(username.truthy && password.truthy &&
                           ntlm_host.truthy && ntlm_domain.truthy) then
                        Except.error (ntlmErrMsg repo)
                      else pure (objSet af "type" (Value.str "ntlm"))
                    else if username.truthy || password.truthy then
                      if !(username.truthy && password.truthy) then
                        Except.error (userErrMsg repo)
                      else pure (objSet af "type" (Value.str "username"))
                    else pure af
                  .ok (Value.obj (objSet nf "httpClient"
                        (Value.obj (objSet hcf "authentication"
                          (Value.obj af')))))
              | _ => .error "AttributeError: object has no attribute get"
            else .ok normalized
        | _ => .error "AttributeError: object has no attribute get"
    | _ => .error "AttributeError: object has no attribute get"
  else .ok normalized

/-- Python `any(key in v for key in keys)`: lazily evaluated, stopping at the
first hit. -/
def pyAnyKeyIn (keys : List String) (v : Value) : Except String Bool :=
  match keys with
  | [] => .ok false
  | k :: rest => do
      let b ← pyIn k v
      if b then pure true else pyAnyKeyIn rest v

/-- Step 7 of `merge_defaults`: for a `proxy` repository whose type-defaults
template resolved `httpClient.authentication` to `None` (or lacked it), set
the authentication back to `None` when the merged block carries none of the
five authentication attributes.  The write `normalized["httpClient"][...]`
raises a `KeyError` when `httpClient` is absent from the merged record. -/
def revertAuth (type_defaults_applied : Value) (repo_type : String)
    (normalized : Value) : Except String Value :=
  if repo_type == "proxy" then
    match get_nested_value type_defaults_applied "httpClient.authentication" with
    | Value.null => do
        let auth_block :=
          get_nested_value normalized "httpClient.authentication" (Value.obj [])
        let anyKey ← pyAnyKeyIn
          ["username", "password", "ntlmHost", "ntlmDomain", "type"] auth_block
        if anyKey then .ok normalized
        else
          match normalized with
          | Value.obj nf =>
              match objGet nf "httpClient" with
              | some (Value.obj hcf) =>
                  .ok (Value.obj (objSet nf "httpClient"
                        (Value.obj (objSet hcf "authentication" Value.null))))
              | some _ => .error "TypeError: item assignment on a non-dict"
              | none => .error "KeyError: httpClient"
          | _ => .error "TypeError: item assignment on a non-dict"
    | _ => .ok normalized
  else .ok normalized

/-- The body of `merge_defaults` (inside its `try`), as the strict sequence
of steps 1-7 of the source.  Deep copies are identities in the pure
embedding, so steps 1-3 use the arguments directly. -/
def merge_defaults_steps
    (repo global_defaults type_defaults format_defaults : Value)
    (repo_type repo_format : String) (legacy_field_map : Value) :
    Except String Value := do
  let normalized := global_defaults
  let type_defaults_applied ← dictGet type_defaults repo_type (Value.obj [])
  let normalized ← merge_dict type_defaults_applied normalized
  let format_defaults_applied ←
    dictGet format_defaults repo_format (Value.obj [])
  let normalized ← merge_dict format_defaults_applied normalized
  let normalized ← fixAuthNone repo_type normalized
  let normalized ←
    legacyLoop repo repo_type repo_format legacy_field_map normalized
  let normalized ← merge_dict repo normalized
  let normalized ← authInference repo repo_type normalized
  revertAuth type_defaults_applied repo_type normalized

/-- `merge_defaults`: run the steps and wrap any raised error with the
repository's declared name (`except Exception as e: raise RuntimeError(...)`,
whose message embeds the repository name and the cause). -/
def merge_defaults
    (repo global_defaults type_defaults format_defaults : Value)
    (repo_type repo_format : String) (legacy_field_map : Value) :
    Except String Value :=
  match merge_defaults_steps repo global_defaults type_defaults
      format_defaults repo_type repo_format legacy_field_map with
  | .ok v => .ok v
  | .error e =>
      .error ("Error processing repository " ++ squote ++ repoName repo ++
        squote ++ ": " ++ e)

/-- Removal of the final path segment of a dotted legacy key: traverse the
parent path (`get_nested_value` semantics: stop silently at a missing key or
a non-dict) and pop the child from the dict found there. -/
def popAtPath (data : Value) (parentKeys : List String) (child : String) :
    Value :=
  match parentKeys, data with
  | [], Value.obj fs =>
      if objHasKey fs child then Value.obj (objRemove fs child)
      else Value.obj fs
  | k :: ks, Value.obj fs =>
      match objGet fs k with
      | some v => Value.obj (objSet fs k (popAtPath v ks child))
      | none => Value.obj fs
  | _, v => v

/-- One iteration of `enhanced_cleanup_legacy_attributes` over a legacy key:
a dotted key is `rsplit` into parent path and child, and the child popped
from the parent dict; an undotted key is popped from the top level. -/
def cleanupStep (cleaned : Value) (legacy_key : String) :
    Except String Value :=
  match splitPath legacy_key with
  | [] => .ok cleaned
  | [_] => do
      let present ← pyIn legacy_key cleaned
      if present then
        match cleaned with
        | Value.obj cf => .ok (Value.obj (objRemove cf legacy_key))
        | _ => .error "AttributeError: object has no attribute pop"
      else .ok cleaned
  | parts =>
      .ok (popAtPath cleaned parts.dropLast (parts.getLastD ""))

/-- The cleanup loop over the keys of `legacy_field_map`, in insertion
order. -/
def cleanupItems (cleaned : Value) (entries : List (String × Value)) :
    Except String Value :=
  match entries with
  | [] => .ok cleaned
  | kv :: rest => do
      let c ← cleanupStep cleaned kv.1
      cleanupItems c rest

/-- `enhanced_cleanup_legacy_attributes(repo, legacy_field_map)`: copy the
record (a shallow copy: the identity in the pure embedding) and remove every
key of `legacy_field_map` at the location it designates. -/
def enhanced_cleanup_legacy_attributes (repo : Value)
    (legacy_field_map : Value) : Except String Value :=
  match repo with
  | Value.obj _ =>
      match legacy_field_map with
      | Value.obj entries => cleanupItems repo entries
      | _ => .error "AttributeError: object has no attribute keys"
  | _ => .error "AttributeError: object has no attribute copy"

/-- The batch entry point registered as the `normalize_repositories` filter:
normalize each record in order, clean it up, and collect the results; a
raise aborts the whole batch. -/
def normalize_and_clean_repositories_with_explicit_cleanup
    (repo_data : List Value)
    (global_defaults type_defaults format_defaults : Value)
    (repo_type repo_format : String) (legacy_field_map : Value) :
    Except String (List Value) :=
  match repo_data with
  | [] => .ok []
  | repo :: rest => do
      let normalized ← merge_defaults repo global_defaults type_defaults
        format_defaults repo_type repo_format legacy_field_map
      let cleaned ←
        enhanced_cleanup_legacy_attributes normalized legacy_field_map
      let others ← normalize_and_clean_repositories_with_explicit_cleanup
        rest global_defaults type_defaults format_defaults repo_type
        repo_format legacy_field_map
      .ok (cleaned :: others)

/-!
### Heap-level model

The pure embedding above cannot observe aliasing, so the frame effect of the
normalizer on its caller-supplied record is modelled separately on an
explicit heap: every dict is an address into a store, scalars are immediate.
All raises and out-of-fuel runs collapse to `none`; this model serves an
existential claim about one successful run, where neither occurs.
-/

/-- A heap-level Python value: scalars are immediate, every dict is a
reference into the heap.  (Lists do not occur in the mutation scenario.) -/
inductive HVal where
  | null
  | bool (b : Bool)
  | int (n : Int)
  | str (s : String)
  | ref (a : Nat)
deriving DecidableEq, Repr

/-- The fields of one heap-allocated dict. -/
abbrev HObj := List (String × HVal)

/-- The heap: dict number `a` lives at index `a`. -/
abbrev Heap := List HObj

/-- Dereference a dict address. -/
def heapGet (h : Heap) (a : Nat) : Option HObj := h.get? a

/-- Overwrite the dict at an address. -/
def heapSet (h : Heap) (a : Nat) (o : HObj) : Heap := h.set a o

/-- Allocate a fresh dict, returning the extended heap and its address. -/
def heapAlloc (h : Heap) (o : HObj) : Heap × Nat := (h ++ [o], h.length)

/-- Heap-level dict lookup. -/
def hObjGet (fs : HObj) (k : String) : Option HVal :=
  match fs with
  | [] => none
  | (k', v) :: rest => if k' == k then some v else hObjGet rest k

/-- Heap-level `d[k] = v`. -/
def hObjSet (fs : HObj) (k : String) (v : HVal) : HObj :=
  match fs with
  | [] => [(k, v)]
  | (k', v') :: rest =>
      if k' == k then (k, v) :: rest else (k', v') :: hObjSet rest k v

/-- Heap-level `d.pop(k, None)`. -/
def hObjRemove (fs : HObj) (k : String) : HObj :=
  fs.filter (fun p => p.1 != k)

/-- Heap-level `k in d`. -/
def hObjHasKey (fs : HObj) (k : String) : Bool :=
  (hObjGet fs k).isSome

/-- Heap-level truthiness (a reference is truthy when the dict behind it is
non-empty). -/
def hTruthy (h : Heap) : HVal → Option Bool
  | HVal.null => some false
  | HVal.bool b => some b
  | HVal.int n => some (n != 0)
  | HVal.str s => some (s != "")
  | HVal.ref a => (heapGet h a).map (fun o => !o.isEmpty)

/-- Heap-level `k in v` (dict key test, string substring test). -/
def hPyIn (h : Heap) (k : String) (v : HVal) : Option Bool :=
  match v with
  | HVal.ref a => (heapGet h a).map (fun o => hObjHasKey o k)
  | HVal.str s => some (charsInfixOf k.toList s.toList)
  | _ => none

/-- Heap-level `any(key in v for key in keys)`. -/
def hAnyKeyIn (h : Heap) (keys : List String) (v : HVal) : Option Bool :=
  match keys with
  | [] => some false
  | k :: rest => do
      let b ← hPyIn h k v
      if b then pure true else hAnyKeyIn h rest v

/-- Heap-level `get_nested_value` on an already-split path. -/
def hGetNestedAux (h : Heap) (v : HVal) (keys : List String)
    (default : HVal) : HVal :=
  match keys, v with
  | [], d => d
  | k :: ks, HVal.ref a =>
      match heapGet h a with
      | some o =>
          match hObjGet o k with
          | some w => hGetNestedAux h w ks default
          | none => default
      | none => default
  | _ :: _, _ => default

mutual

/-- Heap-level `copy.deepcopy`: scalars are immediate; a dict is copied
field by field into a fresh allocation. -/
def hDeepCopy : Nat → Heap → HVal → Option (HVal × Heap)
  | 0, _, _ => none
  | fuel + 1, h, HVal.ref a => do
      let o ← heapGet h a
      let (fields, h') ← hDeepCopyFields fuel h o
      let (h'', b) := heapAlloc h' fields
      pure (HVal.ref b, h'')
  | _ + 1, h, v => some (v, h)

/-- Deep-copy the fields of one dict in order. -/
def hDeepCopyFields : Nat → Heap → HObj → Option (HObj × Heap)
  | 0, _, _ => none
  | _ + 1, h, [] => some ([], h)
  | fuel + 1, h, (k, v) :: rest => do
      let (v', h') ← hDeepCopy fuel h v
      let (rest', h'') ← hDeepCopyFields fuel h' rest
      pure ((k, v') :: rest', h'')

end

mutual

/-- Heap-level `merge_dict(source, destination)`: iterates a snapshot of the
source's items (source and destination are distinct objects in every call
the normalizer makes). -/
def hMergeDict : Nat → Heap → Nat → Nat → Option Heap
  | 0, _, _, _ => none
  | fuel + 1, h, srcA, dstA => do
      let src ← heapGet h srcA
      hMergeItems fuel h src dstA

/-- The `merge_dict` loop body: a dict-valued source entry colliding with a
dict-valued destination entry recurses on the two nested dicts (mutating the
destination's nested dict in place); otherwise `destination[key] = value`
installs the source value - for a dict value, the reference itself. -/
def hMergeItems : Nat → Heap → HObj → Nat → Option Heap
  | 0, _, _, _ => none
  | _ + 1, h, [], _ => some h
  | fuel + 1, h, (k, v) :: rest, dstA => do
      let dst ← heapGet h dstA
      match v with
      | HVal.ref va =>
          match hObjGet dst k with
          | some (HVal.ref ca) => do
              let h' ← hMergeDict fuel h va ca
              hMergeItems fuel h' rest dstA
          | _ => hMergeItems fuel (heapSet h dstA (hObjSet dst k v)) rest dstA
      | _ => hMergeItems fuel (heapSet h dstA (hObjSet dst k v)) rest dstA

end

/-- Heap-level `set_nested_value` on an already-split path (the mutation
effect; the Python function returns `None`). -/
def hSetPath : Nat → Heap → HVal → List String → HVal → Option Heap
  | 0, _, _, _, _ => none
  | _ + 1, h, HVal.ref a, [k], v => do
      let o ← heapGet h a
      pure (heapSet h a (hObjSet o k v))
  | fuel + 1, h, HVal.ref a, k :: ks, v => do
      let o ← heapGet h a
      match hObjGet o k with
      | some child => hSetPath fuel h child ks v
      | none =>
          let (h', b) := heapAlloc h []
          let h'' := heapSet h' a (hObjSet o k (HVal.ref b))
          hSetPath fuel h'' (HVal.ref b) ks v
  | _ + 1, _, _, _, _ => none

/-- Heap-level fix preceding step 4: replace a `None` (or absent)
`httpClient.authentication` of a proxy repository's accumulated defaults by
a freshly allocated empty dict. -/
def hFixAuthNone (h : Heap) (repo_type : String) (nA : Nat) : Option Heap :=
  if repo_type == "proxy" then do
    let n ← heapGet h nA
    if hObjHasKey n "httpClient" then
      match hObjGet n "httpClient" with
      | some (HVal.ref hcA) => do
          let hc ← heapGet h hcA
          match (hObjGet hc "authentication").getD HVal.null with
          | HVal.null =>
              let (h', b) := heapAlloc h []
              pure (heapSet h' hcA (hObjSet hc "authentication" (HVal.ref b)))
          | _ => pure h
      | _ => none
    else pure h
  else pure h

/-- Heap-level step 4 body for one `legacy_field_map` entry. -/
def hLegacyStep (fuel : Nat) (h : Heap) (repoA : Nat)
    (repo_type repo_format : String) (nA : Nat) (legacy_key : String)
    (normalized_key : HVal) : Option Heap := do
  let target? ←
    match normalized_key with
    | HVal.ref ma =>
        if legacy_key == "content_disposition" ||
           legacy_key == "remove_quarantined" then do
          let mk ← heapGet h ma
          if hObjHasKey mk repo_format then
            let sub := (hObjGet mk repo_format).getD HVal.null
            match sub with
            | HVal.ref sa => do
                let so ← heapGet h sa
                if hObjHasKey so repo_type then
                  some (some ((hObjGet so repo_type).getD HVal.null))
                else some none
            | _ => none
          else some none
        else some (some normalized_key)
    | _ => some (some normalized_key)
  match target? with
  | none => some h
  | some target_field =>
      match hGetNestedAux h (HVal.ref repoA) (splitPath legacy_key)
          HVal.null with
      | HVal.null => some h
      | value =>
          match target_field with
          | HVal.str p => hSetPath fuel h (HVal.ref nA) (splitPath p) value
          | _ => none

/-- Heap-level step 4: iterate a snapshot of `legacy_field_map.items()`. -/
def hLegacyLoop (fuel : Nat) (h : Heap) (repoA : Nat)
    (repo_type repo_format : String) (lmA nA : Nat) : Option Heap := do
  let lm ← heapGet h lmA
  lm.foldlM
    (fun hh kv => hLegacyStep fuel hh repoA repo_type repo_format nA kv.1 kv.2)
    h

/-- Heap-level step 6: the authentication-type inference writes the inferred
`type` into the authentication dict - through whatever reference the merged
record holds, which after a by-reference caller merge is the caller's own
dict. -/
def hAuthInference (h : Heap) (repo_type : String) (nA : Nat) :
    Option Heap :=
  if repo_type == "proxy" then do
    let n ← heapGet h nA
    let (hcV, h1) :=
      match hObjGet n "httpClient" with
      | some v => (v, h)
      | none =>
          let (h', b) := heapAlloc h []
          (HVal.ref b, h')
    match hcV with
    | HVal.ref hcA => do
        let hc ← heapGet h1 hcA
        let (abV, h2) :=
          match hObjGet hc "authentication" with
          | some v => (v, h1)
          | none =>
              let (h', b) := heapAlloc h1 []
              (HVal.ref b, h')
        let t ← hTruthy h2 abV
        if t then
          match abV with
          | HVal.ref abA => do
              let ab ← heapGet h2 abA
              let tu ← hTruthy h2 ((hObjGet ab "username").getD HVal.null)
              let tp ← hTruthy h2 ((hObjGet ab "password").getD HVal.null)
              let th ← hTruthy h2 ((hObjGet ab "ntlmHost").getD HVal.null)
              let td ← hTruthy h2 ((hObjGet ab "ntlmDomain").getD HVal.null)
              let h3 ←
                if th || td then
                  if !(tu && tp && th && td) then none
                  else pure (heapSet h2 abA
                    (hObjSet ab "type" (HVal.str "ntlm")))
                else if tu || tp then
                  if !(tu && tp) then none
                  else pure (heapSet h2 abA
                    (hObjSet ab "type" (HVal.str "username")))
                else pure h2
              let hc' ← heapGet h3 hcA
              pure (heapSet h3 hcA (hObjSet hc' "authentication" abV))
          | _ => none
        else pure h2
    | _ => none
  else pure h

/-- Heap-level step 7: revert a scaffolded empty authentication dict back to
`None` when the type-defaults template held none. -/
def hRevertAuth (h : Heap) (tdAppliedV : HVal) (repo_type : String)
    (nA : Nat) : Option Heap :=
  if repo_type == "proxy" then
    match hGetNestedAux h tdAppliedV ["httpClient", "authentication"]
        HVal.null with
    | HVal.null => do
        let (h1, b) := heapAlloc h []
        let ab := hGetNestedAux h1 (HVal.ref nA)
          ["httpClient", "authentication"] (HVal.ref b)
        let anyKey ← hAnyKeyIn h1
          ["username", "password", "ntlmHost", "ntlmDomain", "type"] ab
        if anyKey then pure h1
        else do
          let n ← heapGet h1 nA
          match hObjGet n "httpClient" with
          | some (HVal.ref hcA) => do
              let hc ← heapGet h1 hcA
              pure (heapSet h1 hcA (hObjSet hc "authentication" HVal.null))
          | _ => none
    | _ => pure h
  else pure h

/-- Heap-level `merge_defaults`: the same step sequence as the pure
embedding, with explicit allocation and mutation.  Returns the address of
the normalized dict. -/
def hMergeDefaults (fuel : Nat) (h : Heap) (repoA gdA tdA fdA : Nat)
    (repo_type repo_format : String) (lmA : Nat) : Option (Nat × Heap) := do
  let (gv, h1) ← hDeepCopy fuel h (HVal.ref gdA)
  let nA ← match gv with | HVal.ref a => some a | _ => none
  let td ← heapGet h1 tdA
  let (tdaV, h2) :=
    match hObjGet td repo_type with
    | some v => (v, h1)
    | none =>
        let (h', b) := heapAlloc h1 []
        (HVal.ref b, h')
  let (tdaCopy, h3) ← hDeepCopy fuel h2 tdaV
  let h4 ←
    match tdaCopy with
    | HVal.ref ca => hMergeDict fuel h3 ca nA
    | _ => none
  let fd ← heapGet h4 fdA
  let (fdaV, h5) :=
    match hObjGet fd repo_format with
    | some v => (v, h4)
    | none =>
        let (h', b) := heapAlloc h4 []
        (HVal.ref b, h')
  let (fdaCopy, h6) ← hDeepCopy fuel h5 fdaV
  let h7 ←
    match fdaCopy with
    | HVal.ref ca => hMergeDict fuel h6 ca nA
    | _ => none
  let h8 ← hFixAuthNone h7 repo_type nA
  let h9 ← hLegacyLoop fuel h8 repoA repo_type repo_format lmA nA
  let h10 ← hMergeDict fuel h9 repoA nA
  let h11 ← hAuthInference h10 repo_type nA
  let h12 ← hRevertAuth h11 tdaV repo_type nA
  pure (nA, h12)

/-- Heap-level cleanup step for one legacy key. -/
def hCleanupStep (h : Heap) (cA : Nat) (legacy_key : String) :
    Option Heap := do
  let cleaned ← heapGet h cA
  match splitPath legacy_key with
  | [] => some h
  | [_] =>
      if hObjHasKey cleaned legacy_key then
        some (heapSet h cA (hObjRemove cleaned legacy_key))
      else some h
  | parts =>
      match hGetNestedAux h (HVal.ref cA) parts.dropLast HVal.null with
      | HVal.ref pa => do
          let po ← heapGet h pa
          let child := parts.getLastD ""
          if hObjHasKey po child then
            some (heapSet h pa (hObjRemove po child))
          else some h
      | _ => some h

/-- Heap-level `enhanced_cleanup_legacy_attributes`: `repo.copy()` is a
shallow copy - a fresh top-level dict sharing every nested reference - so
the nested pops write through shared references. -/
def hCleanup (h : Heap) (repoA lmA : Nat) : Option (Nat × Heap) := do
  let repo ← heapGet h repoA
  let (h1, cA) := heapAlloc h repo
  let lm ← heapGet h1 lmA
  let h2 ← lm.foldlM (fun hh kv => hCleanupStep hh cA kv.1) h1
  pure (cA, h2)

/-- Heap-level batch entry point. -/
def hNormalizeBatch (fuel : Nat) (h : Heap) (repoAs : List Nat)
    (gdA tdA fdA : Nat) (repo_type repo_format : String) (lmA : Nat) :
    Option (List Nat × Heap) :=
  match repoAs with
  | [] => some ([], h)
  | rA :: rest => do
      let (nA, h1) ← hMergeDefaults fuel h rA gdA tdA fdA repo_type
        repo_format lmA
      let (cA, h2) ← hCleanup h1 nA lmA
      let (as2, h3) ← hNormalizeBatch fuel h2 rest gdA tdA fdA repo_type
        repo_format lmA
      pure (cA :: as2, h3)

/-- The initial heap of the mutation scenario: a proxy record supplying
`httpClient` (dict 1) holding a complete `authentication` block (dict 2),
with empty defaults (dicts 3-5) and an empty legacy map (dict 6). -/
def mutationHeap : Heap :=
  [[("name", HVal.str "r1"), ("httpClient", HVal.ref 1)],
   [("authentication", HVal.ref 2)],
   [("username", HVal.str "u"), ("password", HVal.str "p")],
   [], [], [], []]

/-! ### Basic dict lemmas -/

theorem objGet_objSet_self (fs : List (String × Value)) (k : String)
    (v : Value) : objGet (objSet fs k v) k = some v := by
  induction fs with
  | nil => simp [objSet, objGet]
  | cons p rest ih =>
      obtain ⟨k', v'⟩ := p
      by_cases h : k' = k
      · simp [objSet, objGet, h]
      · simp [objSet, objGet, h, ih]

theorem objGet_objSet_ne (fs : List (String × Value)) (k k' : String)
    (v : Value) (h : k' ≠ k) : objGet (objSet fs k' v) k = objGet fs k := by
  induction fs with
  | nil => simp [objSet, objGet, h]
  | cons p rest ih =>
      obtain ⟨k₀, v₀⟩ := p
      by_cases h0 : k₀ = k'
      · subst h0
        simp [objSet, objGet, h]
      · simp [objSet, objGet, h0, ih]

theorem objSet_self (fs : List (String × Value)) (k : String) (v : Value)
    (h : objGet fs k = some v) : objSet fs k v = fs := by
  induction fs with
  | nil => simp [objGet] at h
  | cons p rest ih =>
      obtain ⟨k₀, v₀⟩ := p
      by_cases h0 : k₀ = k
      · subst h0
        simp [objGet] at h
        simp [objSet, h]
      · simp [objGet, h0] at h
        simp [objSet, h0, ih h]

theorem objGet_objRemove_self (fs : List (String × Value)) (k : String) :
    objGet (objRemove fs k) k = none := by
  induction fs with
  | nil => simp [objRemove, objGet]
  | cons p rest ih =>
      obtain ⟨k₀, v₀⟩ := p
      by_cases h0 : k₀ = k
      · simpa [objRemove, h0] using ih
      · simp [objRemove, objGet, h0, ih]

theorem objGet_objRemove_ne (fs : List (String × Value)) (k k' : String)
    (h : k' ≠ k) : objGet (objRemove fs k') k = objGet fs k := by
  induction fs with
  | nil => simp [objRemove, objGet]
  | cons p rest ih =>
      obtain ⟨k₀, v₀⟩ := p
      by_cases h0 : k₀ = k'
      · subst h0
        simp [objRemove, objGet, h, ih]
      · simp [objRemove, objGet, h0, ih]

theorem objGet_mem {fs : List (String × Value)} {k : String} {v : Value}
    (h : objGet fs k = some v) : (k, v) ∈ fs := by
  induction fs with
  | nil => simp [objGet] at h
  | cons p rest ih =>
      obtain ⟨k₀, v₀⟩ := p
      by_cases h0 : k₀ = k
      · subst h0
        simp [objGet] at h
        simp [h]
      · simp [objGet, h0] at h
        simp [ih h]

theorem exBind_ok {α β : Type} {e : Except String α} {f : α → Except String β}
    {r : β} :
    e >>= f = Except.ok r ↔ ∃ a, e = Except.ok a ∧ f a = Except.ok r := by
  cases e <;> simp [Bind.bind, Except.bind]

theorem mergeItems_obj_exists (src : List (String × Value)) (dst : Value) :
    dst.isObj = true → ∃ rf, mergeItems src dst = Except.ok (Value.obj rf) := by
  induction src, dst using mergeItems.induct with
  | case1 dst =>
      intro h
      cases dst <;> simp [Value.isObj] at h ⊢
      simp [mergeItems]
  | case2 k rest df vf cf hget ih1 ih2 =>
      intro _
      obtain ⟨rf₁, h1⟩ := ih1 rfl
      obtain ⟨rf₂, h2⟩ := ih2 (Value.obj rf₁) rfl
      refine ⟨rf₂, ?_⟩
      simp [mergeItems, hget, h1, h2, Bind.bind, Except.bind]
  | case3 k v rest df hne ih =>
      intro _
      obtain ⟨rf₂, h2⟩ := ih rfl
      refine ⟨rf₂, ?_⟩
      rw [mergeItems]
      exact h2
      exact hne
  | case4 dst head tail hbad =>
      intro h
      cases dst <;> simp [Value.isObj] at h
      exact (hbad head.1 head.2 _ (by cases head; rfl) rfl).elim

theorem mergeItems_get_absent (src : List (String × Value)) (dst : Value) :
    ∀ (df rf : List (String × Value)) (k : String), dst = Value.obj df →
      k ∉ src.map Prod.fst →
      mergeItems src dst = Except.ok (Value.obj rf) →
      objGet rf k = objGet df k := by
  induction src, dst using mergeItems.induct with
  | case1 dst =>
      intro df rf k hdst _ hok
      subst hdst
      simp [mergeItems] at hok
      simp [hok]
  | case2 k' rest df' vf cf hget ih1 ih2 =>
      intro df rf k hdst hnot hok
      cases hdst
      have hk' : k ≠ k' := fun h => hnot (by simp [h])
      have hrest : k ∉ rest.map Prod.fst := fun h => hnot (by simp [h])
      obtain ⟨rf₁, h1⟩ := mergeItems_obj_exists vf (Value.obj cf) rfl
      simp [mergeItems, hget, h1, Bind.bind, Except.bind] at hok
      have h3 := ih2 (Value.obj rf₁) (objSet df' k' (Value.obj rf₁)) rf k rfl
        hrest hok
      rw [h3]
      exact objGet_objSet_ne _ _ _ _ (Ne.symm hk')
  | case3 k' v rest df' hne ih =>
      intro df rf k hdst hnot hok
      cases hdst
      have hk' : k ≠ k' := fun h => hnot (by simp [h])
      have hrest : k ∉ rest.map Prod.fst := fun h => hnot (by simp [h])
      rw [mergeItems] at hok
      have h3 := ih (objSet df' k' v) rf k rfl hrest hok
      rw [h3]
      exact objGet_objSet_ne _ _ _ _ (Ne.symm hk')
      exact hne
  | case4 dst head tail hbad =>
      intro df rf k hdst _ _
      subst hdst
      exact (hbad head.1 head.2 _ (by cases head; rfl) rfl).elim

theorem mergeItems_get_mem (src : List (String × Value)) (dst : Value) :
    ∀ (df rf : List (String × Value)) (k : String) (v : Value),
      dst = Value.obj df →
      (src.map Prod.fst).Nodup → (k, v) ∈ src → v.isObj = false →
      mergeItems src dst = Except.ok (Value.obj rf) →
      objGet rf k = some v := by
  induction src, dst using mergeItems.induct with
  | case1 dst =>
      intro df rf k v _ _ hmem _ _
      simp at hmem
  | case2 k' rest df' vf cf hget ih1 ih2 =>
      intro df rf k v hdst hnodup hmem hnobj hok
      cases hdst
      rw [List.map_cons] at hnodup
      obtain ⟨rf₁, h1⟩ := mergeItems_obj_exists vf (Value.obj cf) rfl
      simp [mergeItems, hget, h1, Bind.bind, Except.bind] at hok
      rcases List.mem_cons.mp hmem with heq | hrest
      · injection heq with hk hv
        rw [hv] at hnobj
        simp [Value.isObj] at hnobj
      · exact ih2 (Value.obj rf₁) (objSet df' k' (Value.obj rf₁)) rf k v rfl
          (List.nodup_cons.mp hnodup).2 hrest hnobj hok
  | case3 k' v' rest df' hne ih =>
      intro df rf k v hdst hnodup hmem hnobj hok
      cases hdst
      rw [List.map_cons] at hnodup
      rw [mergeItems] at hok
      rcases List.mem_cons.mp hmem with heq | hrest
      · injection heq with hk hv
        subst hk
        subst hv
        have hnotin : k ∉ rest.map Prod.fst := (List.nodup_cons.mp hnodup).1
        have h3 := mergeItems_get_absent rest (Value.obj (objSet df' k v))
          (objSet df' k v) rf k rfl hnotin hok
        rw [h3]
        exact objGet_objSet_self _ _ _
      · exact ih (objSet df' k' v') rf k v rfl (List.nodup_cons.mp hnodup).2
          hrest hnobj hok
      exact hne
  | case4 dst head tail hbad =>
      intro df rf k v hdst _ _ _ _
      subst hdst
      exact (hbad head.1 head.2 _ (by cases head; rfl) rfl).elim

theorem fixAuthNone_shape {rt : String} {nf : List (String × Value)}
    {r : Value} (hok : fixAuthNone rt (Value.obj nf) = Except.ok r) :
    r = Value.obj nf ∨ ∃ x, r = Value.obj (objSet nf "httpClient" x) := by
  by_cases hrt : rt == "proxy"
  · simp only [fixAuthNone, hrt, if_pos, pyIn, Bind.bind, Except.bind] at hok
    by_cases hhk : objHasKey nf "httpClient"
    · simp only [hhk, if_pos] at hok
      rcases hget : objGet nf "httpClient" with _ | hc
      · simp [objHasKey, hget] at hhk
      · rw [hget] at hok
        cases hc with
        | obj hcf =>
            simp only [dictGet, Bind.bind, Except.bind] at hok
            rcases hauth : (objGet hcf "authentication").getD Value.null with
              _ | b | n | s | xs | fs <;> rw [hauth] at hok <;>
              simp at hok <;> try (left; exact hok.symm)
            right
            exact ⟨_, hok.symm⟩
        | null => simp [dictGet] at hok
        | bool b => simp [dictGet] at hok
        | int n => simp [dictGet] at hok
        | str s => simp [dictGet] at hok
        | list xs => simp [dictGet] at hok
    · simp only [hhk, if_neg, Bool.false_eq_true, not_false_eq_true] at hok
      simp at hok
      left
      exact hok.symm
  · simp only [fixAuthNone, hrt] at hok
    simp at hok
    left
    exact hok.symm

theorem fixAuthNone_nonobj_http {nf : List (String × Value)} {hv : Value}
    (hget : objGet nf "httpClient" = some hv) (hno : hv.isObj = false) :
    ∃ e, fixAuthNone "proxy" (Value.obj nf) = Except.error e := by
  have hhk : objHasKey nf "httpClient" = true := by simp [objHasKey, hget]
  simp only [fixAuthNone, pyIn, Bind.bind, Except.bind, hhk, hget]
  cases hv <;> simp [Value.isObj] at hno ⊢ <;> simp [dictGet]

theorem authInference_shape {repo : Value} {rt : String}
    {nf : List (String × Value)} {r : Value}
    (hok : authInference repo rt (Value.obj nf) = Except.ok r) :
    r = Value.obj nf ∨ ∃ x, r = Value.obj (objSet nf "httpClient" x) := by
  by_cases hrt : rt == "proxy"
  · simp only [authInference, hrt, if_pos] at hok
    rcases hhc : (objGet nf "httpClient").getD (Value.obj []) with
      _ | b | n | s | xs | hcf <;> rw [hhc] at hok <;>
      try simp at hok
    by_cases htr : ((objGet hcf "authentication").getD
        (Value.obj [])).truthy
    · simp only [htr, if_pos] at hok
      rcases hab : (objGet hcf "authentication").getD (Value.obj []) with
        _ | b | n | s | xs | af <;> rw [hab] at hok <;>
        try simp at hok
      split at hok
      · split at hok
        · simp [Bind.bind, Except.bind] at hok
        · simp [Bind.bind, Except.bind] at hok
          right
          exact ⟨_, hok.symm⟩
      · split at hok
        · split at hok
          · simp [Bind.bind, Except.bind] at hok
          · simp [Bind.bind, Except.bind] at hok
            right
            exact ⟨_, hok.symm⟩
        · simp [Bind.bind, Except.bind] at hok
          right
          exact ⟨_, hok.symm⟩
    · simp only [htr, if_neg, Bool.false_eq_true, not_false_eq_true] at hok
      simp at hok
      left
      exact hok.symm
  · simp only [authInference, hrt] at hok
    simp at hok
    left
    exact hok.symm

theorem revertAuth_shape {tda : Value} {rt : String}
    {nf : List (String × Value)} {r : Value}
    (hok : revertAuth tda rt (Value.obj nf) = Except.ok r) :
    r = Value.obj nf ∨ ∃ x, r = Value.obj (objSet nf "httpClient" x) := by
  by_cases hrt : rt == "proxy"
  · simp only [revertAuth, hrt, if_pos] at hok
    rcases horig : get_nested_value tda "httpClient.authentication" with
      _ | b | n | s | xs | fs <;> rw [horig] at hok <;>
      try (simp at hok; left; exact hok.symm)
    simp only [Bind.bind, Except.bind] at hok
    rcases hany : pyAnyKeyIn
        ["username", "password", "ntlmHost", "ntlmDomain", "type"]
        (get_nested_value (Value.obj nf) "httpClient.authentication"
          (Value.obj [])) with e | b <;> rw [hany] at hok
    · simp at hok
    · cases b
      · simp only [Bool.false_eq_true, if_neg, not_false_eq_true] at hok
        rcases hhc : objGet nf "httpClient" with _ | hc <;> rw [hhc] at hok
        · simp at hok
        · cases hc <;> try simp at hok
          right
          exact ⟨_, hok.symm⟩
      · simp at hok
        left
        exact hok.symm
  · simp only [revertAuth, hrt] at hok
    simp at hok
    left
    exact hok.symm

theorem legacyStep_null_read {repo : Value} {rt rf : String} {n : Value}
    {lk : String} {nk : Value}
    (hnull : get_nested_value repo lk = Value.null) :
    legacyStep repo rt rf n lk nk = Except.ok n ∨
    ∃ e, legacyStep repo rt rf n lk nk = Except.error e := by
  simp only [legacyStep, Bind.bind, Except.bind]
  rcases htg : legacyTarget rt rf lk nk with e | tgt
  · right
    exact ⟨e, rfl⟩
  · rcases tgt with _ | tf
    · left
      rfl
    · rw [hnull]
      left
      rfl

theorem legacyItems_null_reads {repo : Value} {rt rf : String}
    (entries : List (String × Value)) (n : Value)
    (hnull : ∀ kv ∈ entries, get_nested_value repo kv.1 = Value.null) :
    legacyItems repo rt rf entries n = Except.ok n ∨
    ∃ e, legacyItems repo rt rf entries n = Except.error e := by
  induction entries with
  | nil => left; rfl
  | cons kv rest ih =>
      obtain ⟨k, v⟩ := kv
      have hstep : legacyStep repo rt rf n k v = Except.ok n ∨
          ∃ e, legacyStep repo rt rf n k v = Except.error e :=
        legacyStep_null_read (hnull ⟨k, v⟩ (by simp))
      rcases hstep with hok | ⟨e, herr⟩
      · have ih2 := ih (fun kv hkv => hnull kv (by simp [hkv]))
        rcases ih2 with h | ⟨e, h⟩
        · left
          simp only [legacyItems, Bind.bind, Except.bind, hok]
          exact h
        · right
          refine ⟨e, ?_⟩
          simp only [legacyItems, Bind.bind, Except.bind, hok]
          exact h
      · right
        refine ⟨e, ?_⟩
        simp only [legacyItems, Bind.bind, Except.bind, herr]

theorem strMk_toList (s : String) : String.mk s.toList = s := by
  cases s
  rfl

theorem splitDotChars_ne_nil (cs : List Char) : splitDotChars cs ≠ [] := by
  induction cs with
  | nil => simp [splitDotChars]
  | cons c rest ih =>
      simp only [splitDotChars]
      by_cases h : c == Char.ofNat 46
      · simp [h]
      · simp only [h, Bool.false_eq_true, if_neg, not_false_eq_true]
        rcases hs : splitDotChars rest with _ | ⟨g, gs⟩
        · exact (ih hs).elim
        · simp

theorem splitPath_ne_nil (s : String) : splitPath s ≠ [] := by
  simp only [splitPath, ne_eq, List.map_eq_nil_iff]
  exact splitDotChars_ne_nil _

theorem splitDotChars_singleton {cs : List Char} {g : List Char}
    (h : splitDotChars cs = [g]) : g = cs := by
  induction cs generalizing g with
  | nil => simp [splitDotChars] at h; simp [h]
  | cons c rest ih =>
      simp only [splitDotChars] at h
      by_cases hc : c == Char.ofNat 46
      · rw [if_pos hc] at h
        obtain ⟨h1, h2⟩ := List.cons.injEq .. ▸ h
        exact (splitDotChars_ne_nil rest h2).elim
      · rw [if_neg (by simpa using hc)] at h
        rcases hs : splitDotChars rest with _ | ⟨g', gs⟩
        · exact (splitDotChars_ne_nil rest hs).elim
        · rw [hs] at h
          obtain ⟨h1, h2⟩ := List.cons.injEq .. ▸ h
          subst h1
          have := ih (show splitDotChars rest = [g'] by rw [hs, h2])
          simp [this]

theorem splitPath_singleton {s x : String} (h : splitPath s = [x]) :
    x = s := by
  simp only [splitPath] at h
  rcases hs : splitDotChars s.toList with _ | ⟨g, gs⟩
  · exact (splitDotChars_ne_nil _ hs).elim
  · rw [hs] at h
    simp at h
    obtain ⟨h1, h2⟩ := h
    subst h2
    rw [← h1, splitDotChars_singleton hs, strMk_toList]

theorem dropLast_append_getLastD {α : Type} (l : List α) (d : α)
    (h : l ≠ []) : l.dropLast ++ [l.getLastD d] = l := by
  induction l with
  | nil => simp at h
  | cons a rest ih =>
      cases rest with
      | nil => simp
      | cons b rest' =>
          simp only [List.dropLast_cons₂, List.cons_append, List.cons.injEq,
            true_and]
          simpa using ih (by simp)

theorem popAtPath_null_preserved (segs : List String) :
    ∀ (v : Value) (c : String) (p : List String),
      getNestedAux v p Value.null = Value.null →
      getNestedAux (popAtPath v segs c) p Value.null = Value.null := by
  induction segs with
  | nil =>
      intro v c p hp
      cases v with
      | obj fs =>
          simp only [popAtPath]
          by_cases hk : objHasKey fs c
          · rw [if_pos hk]
            cases p with
            | nil => simp [getNestedAux] at hp
            | cons q ps =>
                simp only [getNestedAux]
                by_cases hq : q = c
                · subst hq
                  simp [objGet_objRemove_self]
                · rw [objGet_objRemove_ne _ _ _ (Ne.symm hq)]
                  simp only [getNestedAux] at hp
                  rcases hg : objGet fs q with _ | w
                  · simp
                  · rw [hg] at hp
                    exact hp
          · rw [if_neg hk]
            exact hp
      | null => exact hp
      | bool b => exact hp
      | int n => exact hp
      | str s => exact hp
      | list xs => exact hp
  | cons s ss ih =>
      intro v c p hp
      cases v with
      | obj fs =>
          simp only [popAtPath]
          rcases hg : objGet fs s with _ | w
          · exact hp
          · cases p with
            | nil => simp [getNestedAux] at hp
            | cons q ps =>
                simp only [getNestedAux]
                by_cases hq : q = s
                · subst hq
                  rw [objGet_objSet_self]
                  simp only [getNestedAux, hg] at hp
                  exact ih w c ps hp
                · rw [objGet_objSet_ne _ _ _ _ (Ne.symm hq)]
                  simp only [getNestedAux] at hp
                  rcases hg2 : objGet fs q with _ | w2
                  · simp
                  · rw [hg2] at hp
                    exact hp
      | null => exact hp
      | bool b => exact hp
      | int n => exact hp
      | str s' => exact hp
      | list xs => exact hp

theorem pop_then_get (segs : List String) :
    ∀ (v : Value) (c : String),
      getNestedAux (popAtPath v segs c) (segs ++ [c]) Value.null =
        Value.null := by
  induction segs with
  | nil =>
      intro v c
      cases v with
      | obj fs =>
          simp only [popAtPath]
          by_cases hk : objHasKey fs c
          · rw [if_pos hk]
            simp [getNestedAux, objGet_objRemove_self]
          · rw [if_neg hk]
            simp only [objHasKey, Option.isSome] at hk
            rcases hg : objGet fs c with _ | w
            · simp [getNestedAux, hg]
            · rw [hg] at hk
              simp at hk
      | null => simp [popAtPath, getNestedAux]
      | bool b => simp [popAtPath, getNestedAux]
      | int n => simp [popAtPath, getNestedAux]
      | str s => simp [popAtPath, getNestedAux]
      | list xs => simp [popAtPath, getNestedAux]
  | cons s ss ih =>
      intro v c
      cases v with
      | obj fs =>
          simp only [popAtPath]
          rcases hg : objGet fs s with _ | w
          · simp [getNestedAux, hg]
          · simp only [List.cons_append, getNestedAux, objGet_objSet_self]
            exact ih w c
      | null => simp [popAtPath, getNestedAux]
      | bool b => simp [popAtPath, getNestedAux]
      | int n => simp [popAtPath, getNestedAux]
      | str s' => simp [popAtPath, getNestedAux]
      | list xs => simp [popAtPath, getNestedAux]

theorem popAtPath_preserves_key {cf : List (String × Value)} {k : String}
    {w : Value} (s : String) (ss : List String) (c : String)
    (hget : objGet cf k = some w) (hno : w.isObj = false) :
    ∃ rf', popAtPath (Value.obj cf) (s :: ss) c = Value.obj rf' ∧
      objGet rf' k = some w := by
  simp only [popAtPath]
  rcases hg : objGet cf s with _ | u
  · exact ⟨cf, rfl, hget⟩
  · by_cases hs : s = k
    · subst hs
      rw [hget] at hg
      cases hg
      have hpop : popAtPath w ss c = w := by
        cases w <;> simp [Value.isObj] at hno <;> simp [popAtPath]
      refine ⟨cf, ?_, hget⟩
      show Value.obj (objSet cf s (popAtPath w ss c)) = Value.obj cf
      rw [hpop, objSet_self _ _ _ hget]
    · exact ⟨_, rfl, by rw [objGet_objSet_ne _ _ _ _ hs]; exact hget⟩

theorem cleanupStep_ok_pop {v : Value} {lk : String} {v' : Value}
    (hok : cleanupStep v lk = Except.ok v') :
    ∃ segs c, splitPath lk = segs ++ [c] ∧ v' = popAtPath v segs c := by
  rcases hsp : splitPath lk with _ | ⟨x, rest⟩
  · exact (splitPath_ne_nil _ hsp).elim
  · rcases rest with _ | ⟨y, rest'⟩
    · have hx : x = lk := splitPath_singleton hsp
      subst hx
      refine ⟨[], x, by simp [hsp], ?_⟩
      simp only [cleanupStep, hsp, Bind.bind, Except.bind] at hok
      cases v with
      | obj cf =>
          simp only [pyIn] at hok
          by_cases hk : objHasKey cf x
          · rw [if_pos ?_] at hok
            · simp at hok
              simp [popAtPath, hk, ← hok]
            · simpa using hk
          · rw [if_neg ?_] at hok
            · simp at hok
              simp [popAtPath, hk, ← hok]
            · simpa using hk
      | str s =>
          simp only [pyIn] at hok
          by_cases hin : charsInfixOf x.toList s.toList
          · rw [if_pos (by simpa using hin)] at hok
            simp at hok
          · rw [if_neg (by simpa using hin)] at hok
            simp at hok
            simp [popAtPath, ← hok]
      | list xs =>
          simp only [pyIn] at hok
          by_cases hin : xs.contains (Value.str x)
          · rw [if_pos (by simpa using hin)] at hok
            simp at hok
          · rw [if_neg (by simpa using hin)] at hok
            simp at hok
            simp [popAtPath, ← hok]
      | null => simp [pyIn] at hok
      | bool b => simp [pyIn] at hok
      | int n => simp [pyIn] at hok
    · refine ⟨(x :: y :: rest').dropLast, (x :: y :: rest').getLastD "", ?_, ?_⟩
      · rw [dropLast_append_getLastD _ _ (by simp)]
      · simp only [cleanupStep, hsp] at hok
        simp at hok
        exact hok.symm

theorem cleanupStep_clears {v : Value} {lk : String} {v' : Value}
    (hok : cleanupStep v lk = Except.ok v') :
    getNestedAux v' (splitPath lk) Value.null = Value.null := by
  obtain ⟨segs, c, hsp, hv'⟩ := cleanupStep_ok_pop hok
  rw [hsp, hv']
  exact pop_then_get segs v c

theorem cleanupStep_preserves_null {v : Value} {lk : String} {v' : Value}
    {p : List String} (hp : getNestedAux v p Value.null = Value.null)
    (hok : cleanupStep v lk = Except.ok v') :
    getNestedAux v' p Value.null = Value.null := by
  obtain ⟨segs, c, hsp, hv'⟩ := cleanupStep_ok_pop hok
  rw [hv']
  exact popAtPath_null_preserved segs v c p hp

theorem cleanupItems_preserves_null {entries : List (String × Value)} :
    ∀ {v out : Value} {p : List String},
      getNestedAux v p Value.null = Value.null →
      cleanupItems v entries = Except.ok out →
      getNestedAux out p Value.null = Value.null := by
  induction entries with
  | nil =>
      intro v out p hp hok
      simp only [cleanupItems] at hok
      simp at hok
      rw [← hok]
      exact hp
  | cons kv rest ih =>
      intro v out p hp hok
      simp only [cleanupItems, Bind.bind, Except.bind] at hok
      rcases hstep : cleanupStep v kv.1 with e | c <;> rw [hstep] at hok
      · simp at hok
      · exact ih (cleanupStep_preserves_null hp hstep) hok

theorem cleanupItems_clears {entries : List (String × Value)} :
    ∀ {v out : Value},
      cleanupItems v entries = Except.ok out →
      ∀ kv ∈ entries, getNestedAux out (splitPath kv.1) Value.null =
        Value.null := by
  induction entries with
  | nil =>
      intro v out _ kv hkv
      simp at hkv
  | cons kv0 rest ih =>
      intro v out hok kv hkv
      simp only [cleanupItems, Bind.bind, Except.bind] at hok
      rcases hstep : cleanupStep v kv0.1 with e | c <;> rw [hstep] at hok
      · simp at hok
      · rcases List.mem_cons.mp hkv with heq | hrest
        · subst heq
          exact cleanupItems_preserves_null (cleanupStep_clears hstep) hok
        · exact ih hok kv hrest

theorem cleanupStep_preserves_key {cf : List (String × Value)} {k lk : String}
    {w : Value} {v' : Value} (hget : objGet cf k = some w)
    (hno : w.isObj = false) (hlk : lk ≠ k)
    (hok : cleanupStep (Value.obj cf) lk = Except.ok v') :
    ∃ rf', v' = Value.obj rf' ∧ objGet rf' k = some w := by
  obtain ⟨segs, c, hsp, hv'⟩ := cleanupStep_ok_pop hok
  subst hv'
  cases segs with
  | nil =>
      have hc : c = lk := by
        have := splitPath_singleton (by simpa using hsp)
        exact this.symm ▸ rfl
      subst hc
      simp only [popAtPath]
      by_cases hk : objHasKey cf c
      · rw [if_pos hk]
        exact ⟨_, rfl, by rw [objGet_objRemove_ne _ _ _ hlk]; exact hget⟩
      · rw [if_neg hk]
        exact ⟨cf, rfl, hget⟩
  | cons s ss => exact popAtPath_preserves_key s ss c hget hno

theorem cleanupItems_preserves_key {entries : List (String × Value)} :
    ∀ {cf : List (String × Value)} {k : String} {w : Value} {out : Value},
      objGet cf k = some w → w.isObj = false →
      (∀ kv ∈ entries, kv.1 ≠ k) →
      cleanupItems (Value.obj cf) entries = Except.ok out →
      ∃ outF, out = Value.obj outF ∧ objGet outF k = some w := by
  induction entries with
  | nil =>
      intro cf k w out hget _ _ hok
      simp only [cleanupItems] at hok
      simp at hok
      exact ⟨cf, hok.symm, hget⟩
  | cons kv0 rest ih =>
      intro cf k w out hget hno hne hok
      simp only [cleanupItems, Bind.bind, Except.bind] at hok
      rcases hstep : cleanupStep (Value.obj cf) kv0.1 with e | c <;>
        rw [hstep] at hok
      · simp at hok
      · obtain ⟨cf', hcf', hget'⟩ :=
          cleanupStep_preserves_key hget hno (hne kv0 (by simp)) hstep
        subst hcf'
        exact ih hget' hno (fun kv hkv => hne kv (by simp [hkv])) hok

theorem setPathAux_get (keys : List String) :
    ∀ (data v d' dflt : Value),
      setPathAux data keys v = Except.ok d' →
      getNestedAux d' keys dflt = v := by
  induction keys with
  | nil =>
      intro data v d' dflt hok
      cases data <;> simp [setPathAux] at hok
  | cons k ks ih =>
      intro data v d' dflt hok
      cases data with
      | obj fs =>
          cases ks with
          | nil =>
              simp only [setPathAux] at hok
              simp at hok
              rw [← hok]
              simp [getNestedAux, objGet_objSet_self]
          | cons k2 ks' =>
              simp only [setPathAux, Bind.bind, Except.bind] at hok
              rcases hc : setPathAux ((objGet fs k).getD (Value.obj []))
                  (k2 :: ks') v with e | c <;> rw [hc] at hok
              · simp at hok
              · simp at hok
                rw [← hok]
                simp only [getNestedAux, objGet_objSet_self]
                exact ih _ v c dflt hc
      | null => simp [setPathAux] at hok
      | bool b => simp [setPathAux] at hok
      | int n => simp [setPathAux] at hok
      | str s => simp [setPathAux] at hok
      | list xs => simp [setPathAux] at hok

/-! ### Claim theorems -/

/-- C9 counterexample: `set_nested_value` does not return the mutated data.
The Python function body has no return statement, so a concrete call returns
`None` while the mutated mapping is `data` itself - refuting the claim that
`set` "also returns data". -/
theorem C9_counterexample :
    set_nested_value (Value.obj []) "a" (Value.str "v") =
      Except.ok (Value.obj [("a", Value.str "v")], Value.null) ∧
    Value.null ≠ Value.obj [("a", Value.str "v")] :=
  ⟨rfl, by simp⟩

/-- C9 (amended): `set_nested_value(data, path, value)` traverses or creates
intermediate mappings for every segment except the last, assigns `value` at
the final segment, and mutates `data` in place - but returns `None`, not
`data`.  First conjunct: every successful call returns `None` and leaves
`value` readable at `path` in the mutated data.  Second conjunct: a path
with no dot (its split is the singleton of itself) performs a direct
top-level assignment. -/
theorem C9_amended :
    (∀ (data : Value) (path : String) (value d' r : Value),
        set_nested_value data path value = Except.ok (d', r) →
        r = Value.null ∧ ∀ dflt, get_nested_value d' path dflt = value) ∧
    (∀ (fs : List (String × Value)) (path : String) (value : Value),
        splitPath path = [path] →
        set_nested_value (Value.obj fs) path value =
          Except.ok (Value.obj (objSet fs path value), Value.null)) := by
  constructor
  · intro data path value d' r hok
    simp only [set_nested_value, Except.map] at hok
    rcases hsp : setPathAux data (splitPath path) value with e | d'' <;>
      rw [hsp] at hok
    · simp at hok
    · simp at hok
      obtain ⟨h1, h2⟩ := hok
      refine ⟨h2.symm, fun dflt => ?_⟩
      rw [← h1]
      exact setPathAux_get _ _ _ _ _ hsp
  · intro fs path value hsp
    simp only [set_nested_value, hsp, setPathAux, Except.map]

/-- C9 witness: the amended contract applied to concrete calls, one dotted
and one dotless. -/
theorem C9_amended_witness :
    (Value.null = Value.null ∧
      ∀ dflt, get_nested_value
        (Value.obj [("a", Value.obj [("b", Value.str "w")])]) "a.b" dflt =
        Value.str "w") ∧
    set_nested_value (Value.obj [("x", Value.int 1)]) "a" (Value.int 2) =
      Except.ok (Value.obj [("x", Value.int 1), ("a", Value.int 2)],
        Value.null) :=
  ⟨C9_amended.1 (Value.obj []) "a.b" (Value.str "w")
      (Value.obj [("a", Value.obj [("b", Value.str "w")])]) Value.null rfl,
   C9_amended.2 [("x", Value.int 1)] "a" (Value.int 2) rfl⟩

/-- C4 counterexample: a (type, format) pair absent from the schema bundle
raises nothing - the batch completes and returns the record, refuting the
claimed SchemaNotFoundError fail-fast. -/
theorem C4_counterexample :
    normalize_and_clean_repositories_with_explicit_cleanup
      [Value.obj [("name", Value.str "r")]]
      (Value.obj []) (Value.obj []) (Value.obj []) "docker" "raw"
      (Value.obj []) = Except.ok [Value.obj [("name", Value.str "r")]] := rfl

/-- C4 (amended): an unknown repository type or format raises no error; the
lookup falls back to an empty mapping (`type_defaults.get(repo_type, {})`),
so the run is identical to one with an empty defaults layer. -/
theorem C4_amended (repo gd td fd : Value) (tdF fdF : List (String × Value))
    (rt rf : String) (lm : Value) :
    (objGet tdF rt = none →
      merge_defaults repo gd (Value.obj tdF) fd rt rf lm =
      merge_defaults repo gd (Value.obj []) fd rt rf lm) ∧
    (objGet fdF rf = none →
      merge_defaults repo gd td (Value.obj fdF) rt rf lm =
      merge_defaults repo gd td (Value.obj []) rt rf lm) := by
  constructor <;> intro h <;>
    simp [merge_defaults, merge_defaults_steps, dictGet, h, objGet]

/-- C4 witness: a bundle registering only `proxy` type defaults behaves for
a `docker` repository exactly as an empty bundle. -/
theorem C4_amended_witness :
    merge_defaults (Value.obj [("name", Value.str "r")]) (Value.obj [])
      (Value.obj [("proxy", Value.obj [("k", Value.int 1)])]) (Value.obj [])
      "docker" "raw" (Value.obj []) =
    merge_defaults (Value.obj [("name", Value.str "r")]) (Value.obj [])
      (Value.obj []) (Value.obj []) "docker" "raw" (Value.obj []) :=
  (C4_amended (Value.obj [("name", Value.str "r")]) (Value.obj [])
    (Value.obj [("proxy", Value.obj [("k", Value.int 1)])]) (Value.obj [])
    [("proxy", Value.obj [("k", Value.int 1)])] [] "docker" "raw"
    (Value.obj [])).1 rfl

/-- C5 counterexample: nothing enforces required fields.  With a schema
layer spelling out `required_fields: ["name"]` (which the code treats as
ordinary default data) and a record with no resolvable name, normalization
returns the record instead of raising a missing-required-field error. -/
theorem C5_counterexample :
    normalize_and_clean_repositories_with_explicit_cleanup
      [Value.obj []]
      (Value.obj [("required_fields", Value.list [Value.str "name"])])
      (Value.obj []) (Value.obj []) "hosted" "raw" (Value.obj []) =
      Except.ok
        [Value.obj [("required_fields", Value.list [Value.str "name"])]] :=
  rfl

/-- C5 (amended): the normalizer performs no required-field validation at
all: every non-proxy record over dict-shaped schema layers normalizes
successfully (with an empty legacy map), whatever fields it lacks - only
proxy authentication can fail a record. -/
theorem C5_amended (repoF gF tdF fdF : List (String × Value)) (rt rf : String)
    (hrt : rt ≠ "proxy")
    (htd : ∀ v, objGet tdF rt = some v → v.isObj = true)
    (hfd : ∀ v, objGet fdF rf = some v → v.isObj = true) :
    ∃ out, normalize_and_clean_repositories_with_explicit_cleanup
      [Value.obj repoF] (Value.obj gF) (Value.obj tdF) (Value.obj fdF)
      rt rf (Value.obj []) = Except.ok [out] := by
  have hrtb : (rt == "proxy") = false := by simpa using hrt
  have htda : ∃ tf, (objGet tdF rt).getD (Value.obj []) = Value.obj tf := by
    rcases hg : objGet tdF rt with _ | v
    · exact ⟨[], rfl⟩
    · have hv := htd v hg
      cases v <;> simp [Value.isObj] at hv ⊢
  have hfda : ∃ ff, (objGet fdF rf).getD (Value.obj []) = Value.obj ff := by
    rcases hg : objGet fdF rf with _ | v
    · exact ⟨[], rfl⟩
    · have hv := hfd v hg
      cases v <;> simp [Value.isObj] at hv ⊢
  obtain ⟨tf, htf⟩ := htda
  obtain ⟨ff, hff⟩ := hfda
  obtain ⟨m2, hm2⟩ := mergeItems_obj_exists tf (Value.obj gF) rfl
  obtain ⟨m3, hm3⟩ := mergeItems_obj_exists ff (Value.obj m2) rfl
  obtain ⟨m5, hm5⟩ := mergeItems_obj_exists repoF (Value.obj m3) rfl
  refine ⟨Value.obj m5, ?_⟩
  simp only [normalize_and_clean_repositories_with_explicit_cleanup,
    merge_defaults, merge_defaults_steps, dictGet, htf, hff, merge_dict,
    hm2, hm3, fixAuthNone, hrtb, legacyLoop, legacyItems, hm5,
    authInference, revertAuth, enhanced_cleanup_legacy_attributes,
    cleanupItems, Bind.bind, Except.bind, Bool.false_eq_true, if_false]

/-- C5 witness: the amended totality applied to the record of the
counterexample scenario. -/
theorem C5_amended_witness :
    ∃ out, normalize_and_clean_repositories_with_explicit_cleanup
      [Value.obj []]
      (Value.obj [("required_fields", Value.list [Value.str "name"])])
      (Value.obj []) (Value.obj []) "hosted" "raw" (Value.obj []) =
      Except.ok [out] :=
  C5_amended [] [("required_fields", Value.list [Value.str "name"])] [] []
    "hosted" "raw" (by decide)
    (by intro v h; simp [objGet] at h)
    (by intro v h; simp [objGet] at h)

/-- C3 counterexample: a legacy key's literal name survives at a nesting
level other than the one the map designates.  With `legacy_field_map`
containing the undotted key `foo`, a caller record nesting `foo` inside
another mapping keeps that nested `foo` in the successful output. -/
theorem C3_counterexample :
    normalize_and_clean_repositories_with_explicit_cleanup
      [Value.obj [("name", Value.str "r"),
        ("x", Value.obj [("foo", Value.int 1)])]]
      (Value.obj []) (Value.obj []) (Value.obj []) "hosted" "raw"
      (Value.obj [("foo", Value.str "bar")]) =
      Except.ok [Value.obj [("name", Value.str "r"),
        ("x", Value.obj [("foo", Value.int 1)])]] ∧
    get_nested_value
      (Value.obj [("name", Value.str "r"),
        ("x", Value.obj [("foo", Value.int 1)])]) "x.foo" Value.null =
      Value.int 1 :=
  ⟨rfl, rfl⟩

/-- C3 (amended): after a successful normalization, every key of
`legacy_field_map` is absent at the location the map designates - the
top level for an undotted key, the final segment under its parent path for a
dotted key - so a lookup of the legacy key's own dotted path in any returned
record yields nothing.  Occurrences of the same name at other nesting
levels may survive. -/
theorem C3_amended (repos : List Value) (gd td fd : Value) (rt rf : String)
    (lmF : List (String × Value)) (outs : List Value)
    (hok : normalize_and_clean_repositories_with_explicit_cleanup repos gd td
      fd rt rf (Value.obj lmF) = Except.ok outs) :
    ∀ out ∈ outs, ∀ kv ∈ lmF,
      get_nested_value out kv.1 Value.null = Value.null := by
  induction repos generalizing outs with
  | nil =>
      simp only
        [normalize_and_clean_repositories_with_explicit_cleanup] at hok
      simp at hok
      subst hok
      intro out hout
      simp at hout
  | cons repo rest ih =>
      rcases hm : merge_defaults repo gd td fd rt rf (Value.obj lmF) with
        e | m
      · simp [normalize_and_clean_repositories_with_explicit_cleanup,
          Bind.bind, Except.bind, hm] at hok
      · rcases hc : enhanced_cleanup_legacy_attributes m (Value.obj lmF) with
          e | c
        · simp [normalize_and_clean_repositories_with_explicit_cleanup,
            Bind.bind, Except.bind, hm, hc] at hok
        · rcases hrest :
              normalize_and_clean_repositories_with_explicit_cleanup
              rest gd td fd rt rf (Value.obj lmF) with e | os
          · simp [normalize_and_clean_repositories_with_explicit_cleanup,
              Bind.bind, Except.bind, hm, hc, hrest] at hok
          · simp only [normalize_and_clean_repositories_with_explicit_cleanup,
              Bind.bind, Except.bind, hm, hc, hrest] at hok
            simp at hok
            subst hok
            intro out hout kv hkv
            rcases List.mem_cons.mp hout with heq | hos
            · subst heq
              cases m with
              | obj mF =>
                  simp only [enhanced_cleanup_legacy_attributes] at hc
                  exact cleanupItems_clears hc kv hkv
              | null => simp [enhanced_cleanup_legacy_attributes] at hc
              | bool b => simp [enhanced_cleanup_legacy_attributes] at hc
              | int n => simp [enhanced_cleanup_legacy_attributes] at hc
              | str s => simp [enhanced_cleanup_legacy_attributes] at hc
              | list xs => simp [enhanced_cleanup_legacy_attributes] at hc
            · exact ih os hrest out hos kv hkv

/-- C3 witness: the legacy key `foo`, remapped to `bar` and present in the
caller record, is gone from the output at its own location. -/
theorem C3_amended_witness :
    get_nested_value (Value.obj [("bar", Value.str "z"),
      ("name", Value.str "r")]) "foo" Value.null = Value.null :=
  C3_amended [Value.obj [("name", Value.str "r"), ("foo", Value.str "z")]]
    (Value.obj []) (Value.obj []) (Value.obj []) "hosted" "raw"
    [("foo", Value.str "bar")]
    [Value.obj [("bar", Value.str "z"), ("name", Value.str "r")]] rfl
    (Value.obj [("bar", Value.str "z"), ("name", Value.str "r")]) (by simp)
    ("foo", Value.str "bar") (by simp)

/-- C6 counterexample: a `hosted` (non-proxy) record whose caller data holds
`httpClient.authentication.username` and `password` normalizes successfully
with no `type` discriminator at all - the inference only runs for `proxy` -
refuting the claim for "every record of any repository type". -/
theorem C6_counterexample :
    normalize_and_clean_repositories_with_explicit_cleanup
      [Value.obj [("name", Value.str "r"),
        ("httpClient", Value.obj [("authentication",
          Value.obj [("username", Value.str "u"),
                     ("password", Value.str "p")])])]]
      (Value.obj []) (Value.obj []) (Value.obj []) "hosted" "raw"
      (Value.obj []) =
      Except.ok [Value.obj [("name", Value.str "r"),
        ("httpClient", Value.obj [("authentication",
          Value.obj [("username", Value.str "u"),
                     ("password", Value.str "p")])])]] ∧
    get_nested_value
      (Value.obj [("name", Value.str "r"),
        ("httpClient", Value.obj [("authentication",
          Value.obj [("username", Value.str "u"),
                     ("password", Value.str "p")])])])
      "httpClient.authentication.username" Value.null = Value.str "u" ∧
    get_nested_value
      (Value.obj [("name", Value.str "r"),
        ("httpClient", Value.obj [("authentication",
          Value.obj [("username", Value.str "u"),
                     ("password", Value.str "p")])])])
      "httpClient.authentication.type" Value.null = Value.null :=
  ⟨rfl, rfl, rfl⟩

/-- C10: the normalizer can mutate the caller-supplied record.  In the heap
model, a proxy record supplying `httpClient` with a complete authentication
dict (heap cell 2), merged by reference while no default layer defines
`httpClient`, ends the batch call with the inferred `type` written into the
caller's own authentication dict: reachable from the input record (cell 0),
`httpClient.authentication.type` is `"username"` after the call though it
was absent before. -/
theorem C10_mutation :
    ((hNormalizeBatch 100 mutationHeap [0] 3 4 5 "proxy" "maven" 6).map
      (fun r => hGetNestedAux r.2 (HVal.ref 0)
        ["httpClient", "authentication", "type"] HVal.null)) =
      some (HVal.str "username") ∧
    hGetNestedAux mutationHeap (HVal.ref 0)
      ["httpClient", "authentication", "type"] HVal.null = HVal.null :=
  ⟨rfl, rfl⟩

/-- C8 counterexample: for a legacy key other than `content_disposition` or
`remove_quarantined`, a dict-valued target is not resolved context-
dependently and not skipped: the dict itself is taken as the target path and
normalization raises (`target_field.split` on a dict), refuting the claim
for "every entry whose target is a mapping". -/
theorem C8_counterexample :
    merge_defaults
      (Value.obj [("name", Value.str "r"), ("other_key", Value.str "x")])
      (Value.obj []) (Value.obj []) (Value.obj []) "hosted" "raw"
      (Value.obj [("other_key", Value.obj [("raw",
        Value.obj [("hosted", Value.str "a.b")])])]) =
      Except.error ("Error processing repository " ++ squote ++ "r" ++
        squote ++ ": AttributeError: object has no attribute split") := rfl

/-- C8 (amended): context-dependent remapping applies only to the legacy
keys `content_disposition` and `remove_quarantined`.  For those, a
dict-valued target resolves through `target[repo_format][repo_type]`: a
missing format or type entry skips the legacy key entirely (no error, and -
per the concrete batch conjunct - no trace in the output), and a present
entry becomes the resolved target. -/
theorem C8_amended (rt rf : String) (lk : String)
    (tf : List (String × Value))
    (hlk : lk = "content_disposition" ∨ lk = "remove_quarantined") :
    (objGet tf rf = none →
      ∀ repo n, legacyStep repo rt rf n lk (Value.obj tf) = Except.ok n) ∧
    (∀ g, objGet tf rf = some (Value.obj g) → objGet g rt = none →
      ∀ repo n, legacyStep repo rt rf n lk (Value.obj tf) = Except.ok n) ∧
    (∀ g p, objGet tf rf = some (Value.obj g) →
      objGet g rt = some p →
      legacyTarget rt rf lk (Value.obj tf) = Except.ok (some p)) ∧
    normalize_and_clean_repositories_with_explicit_cleanup
      [Value.obj [("name", Value.str "r"),
        ("content_disposition", Value.str "inline")]]
      (Value.obj []) (Value.obj []) (Value.obj []) "hosted" "raw"
      (Value.obj [("content_disposition", Value.obj [("docker",
        Value.obj [("proxy", Value.str "a.b")])])]) =
      Except.ok [Value.obj [("name", Value.str "r")]] := by
  have hcond : ((lk == "content_disposition" ||
      lk == "remove_quarantined") && (Value.obj tf).isObj) = true := by
    rcases hlk with h | h <;> subst h <;> simp [Value.isObj]
  refine ⟨?_, ?_, ?_, rfl⟩
  · intro hrf repo n
    have htg : legacyTarget rt rf lk (Value.obj tf) = Except.ok none := by
      simp [legacyTarget, hcond, pyIn, objHasKey, hrf, Bind.bind,
        Except.bind, Pure.pure, Except.pure]
    simp [legacyStep, htg, Bind.bind, Except.bind]
  · intro g hrf hrt repo n
    have htg : legacyTarget rt rf lk (Value.obj tf) = Except.ok none := by
      simp [legacyTarget, hcond, pyIn, objHasKey, hrf, hrt, Bind.bind,
        Except.bind, Pure.pure, Except.pure]
    simp [legacyStep, htg, Bind.bind, Except.bind]
  · intro g p hrf hrt
    simp [legacyTarget, hcond, pyIn, objHasKey, hrf, hrt, Bind.bind,
      Except.bind, Pure.pure, Except.pure]

/-- C8 witness: a `content_disposition` mapping with no entry for format
`raw` leaves the normalized record untouched. -/
theorem C8_amended_witness :
    legacyStep (Value.obj [("content_disposition", Value.str "i")]) "hosted"
      "raw" (Value.obj [("z", Value.int 1)]) "content_disposition"
      (Value.obj [("docker", Value.obj [("proxy", Value.str "a.b")])]) =
      Except.ok (Value.obj [("z", Value.int 1)]) :=
  (C8_amended "hosted" "raw" "content_disposition"
    [("docker", Value.obj [("proxy", Value.str "a.b")])] (Or.inl rfl)).1 rfl
    (Value.obj [("content_disposition", Value.str "i")])
    (Value.obj [("z", Value.int 1)])

/-- String append is associative (needed to exhibit the repository name as a
substring of an error message). -/
theorem strAppend_assoc (a b c : String) : a ++ b ++ c = a ++ (b ++ c) := by
  cases a
  cases b
  cases c
  show String.mk _ = String.mk _
  rw [List.append_assoc]

/-- A dict holding a truthy value at some key is itself truthy. -/
theorem objGet_truthy_nonempty {af : List (String × Value)} {k : String}
    (h : ((objGet af k).getD Value.null).truthy = true) :
    Value.truthy (Value.obj af) = true := by
  cases af with
  | nil => simp [objGet, Value.truthy] at h
  | cons p rest => simp [Value.truthy]

/-- C2: authentication-type inference for `proxy` repositories, on the
merged record (`httpClient.authentication` being a mapping `af`), with
"holds"/"present" read as the code reads it (Python truthiness).  If the
block holds `ntlmHost` or `ntlmDomain`: inference fails with the NTLM error
naming the repository unless username, password, ntlmHost and ntlmDomain are
all present, in which case `type` is set to `"ntlm"`.  Else if it holds
username or password: inference fails with the username error naming the
repository unless both are present, in which case `type` is set to
`"username"`.  Else the record is left as-is.  Final conjunct: a proxy
record whose authentication holds only `ntlmHost` makes the whole
`merge_defaults` fail with an error naming the repository `r1`. -/
theorem C2_auth_inference (repo : Value) (nf hcf af : List (String × Value))
    (hhc : objGet nf "httpClient" = some (Value.obj hcf))
    (hab : objGet hcf "authentication" = some (Value.obj af)) :
    ((((objGet af "ntlmHost").getD Value.null).truthy ||
      ((objGet af "ntlmDomain").getD Value.null).truthy) = true →
      ((((objGet af "username").getD Value.null).truthy &&
        ((objGet af "password").getD Value.null).truthy &&
        ((objGet af "ntlmHost").getD Value.null).truthy &&
        ((objGet af "ntlmDomain").getD Value.null).truthy) = true →
        authInference repo "proxy" (Value.obj nf) =
          Except.ok (Value.obj (objSet nf "httpClient" (Value.obj
            (objSet hcf "authentication" (Value.obj
              (objSet af "type" (Value.str "ntlm")))))))) ∧
      ((((objGet af "username").getD Value.null).truthy &&
        ((objGet af "password").getD Value.null).truthy &&
        ((objGet af "ntlmHost").getD Value.null).truthy &&
        ((objGet af "ntlmDomain").getD Value.null).truthy) = false →
        authInference repo "proxy" (Value.obj nf) =
          Except.error (ntlmErrMsg repo) ∧
        ∃ pre post, ntlmErrMsg repo = pre ++ repoName repo ++ post)) ∧
    ((((objGet af "ntlmHost").getD Value.null).truthy ||
      ((objGet af "ntlmDomain").getD Value.null).truthy) = false →
      (((objGet af "username").getD Value.null).truthy ||
       ((objGet af "password").getD Value.null).truthy) = true →
      ((((objGet af "username").getD Value.null).truthy &&
        ((objGet af "password").getD Value.null).truthy) = true →
        authInference repo "proxy" (Value.obj nf) =
          Except.ok (Value.obj (objSet nf "httpClient" (Value.obj
            (objSet hcf "authentication" (Value.obj
              (objSet af "type" (Value.str "username")))))))) ∧
      ((((objGet af "username").getD Value.null).truthy &&
        ((objGet af "password").getD Value.null).truthy) = false →
        authInference repo "proxy" (Value.obj nf) =
          Except.error (userErrMsg repo) ∧
        ∃ pre post, userErrMsg repo = pre ++ repoName repo ++ post)) ∧
    ((((objGet af "ntlmHost").getD Value.null).truthy ||
      ((objGet af "ntlmDomain").getD Value.null).truthy) = false →
      (((objGet af "username").getD Value.null).truthy ||
       ((objGet af "password").getD Value.null).truthy) = false →
      authInference repo "proxy" (Value.obj nf) =
        Except.ok (Value.obj nf)) ∧
    merge_defaults
      (Value.obj [("name", Value.str "r1"),
        ("httpClient", Value.obj [("authentication",
          Value.obj [("ntlmHost", Value.str "h")])])])
      (Value.obj []) (Value.obj []) (Value.obj []) "proxy" "maven"
      (Value.obj []) =
      Except.error ("Error processing repository " ++ squote ++ "r1" ++
        squote ++ ": Repository " ++ squote ++ "r1" ++ squote ++
        " is missing required fields for NTLM authentication (username, " ++
        "password, ntlmHost, ntlmDomain).") := by
  refine ⟨?_, ?_, ?_, rfl⟩
  · intro hntlm
    have haf : Value.truthy (Value.obj af) = true := by
      rcases Bool.or_eq_true_iff.mp hntlm with h | h
      · exact objGet_truthy_nonempty h
      · exact objGet_truthy_nonempty h
    constructor
    · intro hall
      simp only [authInference, hhc, hab, Option.getD_some, haf, if_true,
        beq_self_eq_true, Bind.bind, Except.bind, Pure.pure, Except.pure]
      rw [if_pos hntlm, if_neg (by simp [hall])]
    · intro hnall
      refine ⟨?_, "Repository " ++ squote,
        squote ++
          " is missing required fields for NTLM authentication (username, "
          ++ "password, ntlmHost, ntlmDomain).", ?_⟩
      · simp only [authInference, hhc, hab, Option.getD_some, haf, if_true,
          beq_self_eq_true, Bind.bind, Except.bind, Pure.pure, Except.pure]
        rw [if_pos hntlm, if_pos (by simp [hnall])]
      · simp only [ntlmErrMsg, strAppend_assoc]
  · intro hntlm huser
    constructor
    · intro hboth
      have haf : Value.truthy (Value.obj af) = true := by
        rcases Bool.or_eq_true_iff.mp huser with h | h
        · exact objGet_truthy_nonempty h
        · exact objGet_truthy_nonempty h
      simp only [authInference, hhc, hab, Option.getD_some, haf, if_true,
        beq_self_eq_true, Bind.bind, Except.bind, Pure.pure, Except.pure]
      rw [if_neg (by simp [hntlm]), if_pos huser, if_neg (by simp [hboth])]
    · intro hnboth
      have haf : Value.truthy (Value.obj af) = true := by
        rcases Bool.or_eq_true_iff.mp huser with h | h
        · exact objGet_truthy_nonempty h
        · exact objGet_truthy_nonempty h
      refine ⟨?_, "Repository " ++ squote,
        squote ++
          " is missing required fields for username authentication (username "
          ++ "and password).", ?_⟩
      · simp only [authInference, hhc, hab, Option.getD_some, haf, if_true,
          beq_self_eq_true, Bind.bind, Except.bind, Pure.pure, Except.pure]
        rw [if_neg (by simp [hntlm]), if_pos huser,
          if_pos (by simp [hnboth])]
      · simp only [userErrMsg, strAppend_assoc]
  · intro hntlm huser
    by_cases haf : Value.truthy (Value.obj af) = true
    · simp only [authInference, hhc, hab, Option.getD_some, haf, if_true,
        beq_self_eq_true, Bind.bind, Except.bind, Pure.pure, Except.pure]
      rw [if_neg (by simp [hntlm]), if_neg (by simp [huser])]
      rw [objSet_self _ _ _ hab, objSet_self _ _ _ hhc]
    · have haf' : (Value.obj af).truthy = false := by
        cases h : (Value.obj af).truthy
        · rfl
        · exact absurd h haf
      simp only [authInference, hhc, hab, Option.getD_some, haf',
        beq_self_eq_true, if_true, Bool.false_eq_true, if_false]

/-- C2 witness: a complete NTLM block on a concrete proxy record gets
`type: "ntlm"`. -/
theorem C2_auth_inference_witness :
    authInference (Value.obj [("name", Value.str "r")]) "proxy"
      (Value.obj [("httpClient", Value.obj [("authentication",
        Value.obj [("username", Value.str "u"), ("password", Value.str "p"),
          ("ntlmHost", Value.str "h"),
          ("ntlmDomain", Value.str "d")])])]) =
      Except.ok (Value.obj (objSet
        [("httpClient", Value.obj [("authentication",
          Value.obj [("username", Value.str "u"), ("password", Value.str "p"),
            ("ntlmHost", Value.str "h"), ("ntlmDomain", Value.str "d")])])]
        "httpClient" (Value.obj (objSet
          [("authentication", Value.obj [("username", Value.str "u"),
            ("password", Value.str "p"), ("ntlmHost", Value.str "h"),
            ("ntlmDomain", Value.str "d")])]
          "authentication" (Value.obj (objSet
            [("username", Value.str "u"), ("password", Value.str "p"),
             ("ntlmHost", Value.str "h"), ("ntlmDomain", Value.str "d")]
            "type" (Value.str "ntlm"))))))) :=
  ((C2_auth_inference (Value.obj [("name", Value.str "r")])
    [("httpClient", Value.obj [("authentication",
      Value.obj [("username", Value.str "u"), ("password", Value.str "p"),
        ("ntlmHost", Value.str "h"), ("ntlmDomain", Value.str "d")])])]
    [("authentication", Value.obj [("username", Value.str "u"),
      ("password", Value.str "p"), ("ntlmHost", Value.str "h"),
      ("ntlmDomain", Value.str "d")])]
    [("username", Value.str "u"), ("password", Value.str "p"),
     ("ntlmHost", Value.str "h"), ("ntlmDomain", Value.str "d")]
    rfl rfl).1 rfl).1 rfl

/-- C7: revert-to-absent for proxy repositories.  When the type-defaults
template resolves `httpClient.authentication` to null-or-absent and the
merged record's authentication mapping contains none of the keys username,
password, ntlmHost, ntlmDomain, type, step 7 sets `httpClient.authentication` back to null.  Final conjunct: with type defaults declaring
`httpClient.authentication: null` and a caller supplying no auth fields, the
full `merge_defaults` output holds `httpClient.authentication = null`, not
an empty mapping. -/
theorem C7_revert_to_null (tda : Value) (nf hcf af : List (String × Value))
    (horig : get_nested_value tda "httpClient.authentication" = Value.null)
    (hhc : objGet nf "httpClient" = some (Value.obj hcf))
    (hab : objGet hcf "authentication" = some (Value.obj af))
    (hkeys : ∀ k ∈ ["username", "password", "ntlmHost", "ntlmDomain",
      "type"], objHasKey af k = false) :
    (revertAuth tda "proxy" (Value.obj nf) =
      Except.ok (Value.obj (objSet nf "httpClient"
        (Value.obj (objSet hcf "authentication" Value.null))))) ∧
    merge_defaults (Value.obj [("name", Value.str "r1")]) (Value.obj [])
      (Value.obj [("proxy", Value.obj [("httpClient",
        Value.obj [("authentication", Value.null)])])])
      (Value.obj []) "proxy" "maven" (Value.obj []) =
      Except.ok (Value.obj [("httpClient",
        Value.obj [("authentication", Value.null)]),
        ("name", Value.str "r1")]) := by
  refine ⟨?_, rfl⟩
  have habl : get_nested_value (Value.obj nf) "httpClient.authentication"
      (Value.obj []) = Value.obj af := by
    have hsp : splitPath "httpClient.authentication" =
      ["httpClient", "authentication"] := rfl
    rw [get_nested_value, hsp]
    simp [getNestedAux, hhc, hab]
  have hany : pyAnyKeyIn ["username", "password", "ntlmHost", "ntlmDomain",
      "type"] (Value.obj af) = Except.ok false := by
    simp [pyAnyKeyIn, pyIn, Bind.bind, Except.bind,
      hkeys "username" (by simp), hkeys "password" (by simp),
      hkeys "ntlmHost" (by simp), hkeys "ntlmDomain" (by simp),
      hkeys "type" (by simp)]
  simp only [revertAuth, beq_self_eq_true, if_true, horig, habl, hany,
    Bind.bind, Except.bind, Bool.false_eq_true, if_false, hhc]

/-- C7 witness: a scaffolded empty authentication dict reverts to null. -/
theorem C7_revert_to_null_witness :
    revertAuth (Value.obj [("httpClient",
        Value.obj [("authentication", Value.null)])]) "proxy"
      (Value.obj [("httpClient",
        Value.obj [("authentication", Value.obj [])])]) =
      Except.ok (Value.obj (objSet
        [("httpClient", Value.obj [("authentication", Value.obj [])])]
        "httpClient" (Value.obj (objSet
          [("authentication", Value.obj [])] "authentication"
          Value.null)))) :=
  (C7_revert_to_null
    (Value.obj [("httpClient", Value.obj [("authentication", Value.null)])])
    [("httpClient", Value.obj [("authentication", Value.obj [])])]
    [("authentication", Value.obj [])] [] rfl rfl rfl
    (fun _ _ => rfl)).1

/-- A successful `merge_defaults` is a successful run of its step
sequence (the error wrapper preserves success). -/
theorem merge_defaults_ok_steps {repo gd td fd : Value} {rt rf : String}
    {lm out : Value}
    (hok : merge_defaults repo gd td fd rt rf lm = Except.ok out) :
    merge_defaults_steps repo gd td fd rt rf lm = Except.ok out := by
  unfold merge_defaults at hok
  rcases h : merge_defaults_steps repo gd td fd rt rf lm with e | m <;>
    rw [h] at hok <;> simp at hok
  rw [hok]

/-- Decompose a successful step sequence into its last two stages: some
intermediate record passed through the authentication inference and the
revert step. -/
theorem merge_defaults_steps_last {repo gd td fd : Value} {rt rf : String}
    {lm out : Value}
    (hok : merge_defaults_steps repo gd td fd rt rf lm = Except.ok out) :
    ∃ tda m5 m6, authInference repo rt m5 = Except.ok m6 ∧
      revertAuth tda rt m6 = Except.ok out := by
  simp only [merge_defaults_steps, Bind.bind, Except.bind] at hok
  split at hok
  · simp at hok
  rename_i tda h1
  split at hok
  · simp at hok
  rename_i m2 h2
  split at hok
  · simp at hok
  rename_i fda h3
  split at hok
  · simp at hok
  rename_i m3 h4
  split at hok
  · simp at hok
  rename_i m4 h5
  split at hok
  · simp at hok
  rename_i m4' h6
  split at hok
  · simp at hok
  rename_i m5 h7
  split at hok
  · simp at hok
  rename_i m6 h8
  exact ⟨tda, m5, m6, h8, hok⟩

/-- Step 7 either returns its input unchanged or rewrites exactly
`httpClient.authentication` to null. -/
theorem revertAuth_cases {tda : Value} {rt : String} {m r : Value}
    (hok : revertAuth tda rt m = Except.ok r) :
    r = m ∨ ∃ nf hcf, m = Value.obj nf ∧
      objGet nf "httpClient" = some (Value.obj hcf) ∧
      r = Value.obj (objSet nf "httpClient"
        (Value.obj (objSet hcf "authentication" Value.null))) := by
  by_cases hrt : rt == "proxy"
  · simp only [revertAuth, hrt, if_pos] at hok
    rcases horig : get_nested_value tda "httpClient.authentication" with
      _ | b | n | s | xs | fs <;> rw [horig] at hok <;>
      try (simp at hok; left; exact hok.symm)
    simp only [Bind.bind, Except.bind] at hok
    rcases hany : pyAnyKeyIn
        ["username", "password", "ntlmHost", "ntlmDomain", "type"]
        (get_nested_value m "httpClient.authentication"
          (Value.obj [])) with e | b <;> rw [hany] at hok
    · simp at hok
    · cases b
      · simp only [Bool.false_eq_true, if_neg, not_false_eq_true] at hok
        split at hok
        · rename_i nf
          split at hok
          · rename_i hcf hhc
            simp at hok
            right
            exact ⟨nf, hcf, rfl, hhc, hok.symm⟩
          · simp at hok
          · simp at hok
        · simp at hok
      · simp at hok
        left
        exact hok.symm
  · simp only [revertAuth, hrt] at hok
    simp at hok
    left
    exact hok.symm

/-- If step 6 succeeds on a proxy record and its output carries a truthy
credential key inside `httpClient.authentication`, that block carries a
`type` of `"ntlm"` or `"username"`. -/
theorem authInference_out_typed {repo m : Value}
    {nf hcf af : List (String × Value)}
    (hok : authInference repo "proxy" m = Except.ok (Value.obj nf))
    (hhc : objGet nf "httpClient" = some (Value.obj hcf))
    (hab : objGet hcf "authentication" = some (Value.obj af))
    (htruthy : (((objGet af "username").getD Value.null).truthy ||
      ((objGet af "password").getD Value.null).truthy ||
      ((objGet af "ntlmHost").getD Value.null).truthy ||
      ((objGet af "ntlmDomain").getD Value.null).truthy) = true) :
    objGet af "type" = some (Value.str "ntlm") ∨
    objGet af "type" = some (Value.str "username") := by
  have htr_of : Value.truthy (Value.obj af) = true := by
    rcases Bool.or_eq_true_iff.mp htruthy with h | h
    · rcases Bool.or_eq_true_iff.mp h with h' | h'
      · rcases Bool.or_eq_true_iff.mp h' with h'' | h''
        · exact objGet_truthy_nonempty h''
        · exact objGet_truthy_nonempty h''
      · exact objGet_truthy_nonempty h'
    · exact objGet_truthy_nonempty h
  cases m with
  | obj nf5 =>
      simp only [authInference, beq_self_eq_true, if_true, Bind.bind,
        Except.bind] at hok
      rcases hhc5 : (objGet nf5 "httpClient").getD (Value.obj []) with
        _ | b | n | s | xs | hcf5 <;> rw [hhc5] at hok <;> try simp at hok
      split at hok
      · rename_i htr
        split at hok
        · rename_i af5 hab5
          split at hok
          · split at hok
            · simp at hok
            · simp only [Pure.pure, Except.pure, Except.ok.injEq,
                Value.obj.injEq] at hok
              have hnf : nf = objSet nf5 "httpClient" (Value.obj
                  (objSet hcf5 "authentication" (Value.obj
                    (objSet af5 "type" (Value.str "ntlm"))))) := hok.symm
              have h1 : objGet nf "httpClient" = some (Value.obj
                  (objSet hcf5 "authentication" (Value.obj
                    (objSet af5 "type" (Value.str "ntlm"))))) := by
                rw [hnf]
                exact objGet_objSet_self _ _ _
              rw [hhc] at h1
              injection h1 with h1
              injection h1 with h1
              have h2 : objGet hcf "authentication" = some (Value.obj
                  (objSet af5 "type" (Value.str "ntlm"))) := by
                rw [h1]
                exact objGet_objSet_self _ _ _
              rw [hab] at h2
              injection h2 with h2
              injection h2 with h2
              left
              rw [h2]
              exact objGet_objSet_self _ _ _
          · split at hok
            · split at hok
              · simp at hok
              · simp only [Pure.pure, Except.pure, Except.ok.injEq,
                  Value.obj.injEq] at hok
                have hnf : nf = objSet nf5 "httpClient" (Value.obj
                    (objSet hcf5 "authentication" (Value.obj
                      (objSet af5 "type" (Value.str "username"))))) :=
                  hok.symm
                have h1 : objGet nf "httpClient" = some (Value.obj
                    (objSet hcf5 "authentication" (Value.obj
                      (objSet af5 "type" (Value.str "username"))))) := by
                  rw [hnf]
                  exact objGet_objSet_self _ _ _
                rw [hhc] at h1
                injection h1 with h1
                injection h1 with h1
                have h2 : objGet hcf "authentication" = some (Value.obj
                    (objSet af5 "type" (Value.str "username"))) := by
                  rw [h1]
                  exact objGet_objSet_self _ _ _
                rw [hab] at h2
                injection h2 with h2
                injection h2 with h2
                right
                rw [h2]
                exact objGet_objSet_self _ _ _
            · rename_i hg1 hg2
              simp only [Pure.pure, Except.pure, Except.ok.injEq,
                Value.obj.injEq] at hok
              have hnf : nf = objSet nf5 "httpClient" (Value.obj
                  (objSet hcf5 "authentication" (Value.obj af5))) := hok.symm
              have h1 : objGet nf "httpClient" = some (Value.obj
                  (objSet hcf5 "authentication" (Value.obj af5))) := by
                rw [hnf]
                exact objGet_objSet_self _ _ _
              rw [hhc] at h1
              injection h1 with h1
              injection h1 with h1
              have h2 : objGet hcf "authentication" =
                  some (Value.obj af5) := by
                rw [h1]
                exact objGet_objSet_self _ _ _
              rw [hab] at h2
              injection h2 with h2
              injection h2 with h2
              rw [h2] at htruthy
              simp at hg1 hg2
              simp [hg1.1, hg1.2, hg2.1, hg2.2] at htruthy
        · simp at hok
      · rename_i htr
        simp only [Except.ok.injEq, Value.obj.injEq] at hok
        have hnf : nf5 = nf := hok
        subst hnf
        rw [hhc] at hhc5
        simp at hhc5
        subst hhc5
        rw [hab] at htr
        simp at htr
        rw [htr_of] at htr
        simp at htr
  | null => simp [authInference] at hok
  | bool b => simp [authInference] at hok
  | int n => simp [authInference] at hok
  | str s => simp [authInference] at hok
  | list xs => simp [authInference] at hok

/-- C6 (amended): the output invariant holds for `proxy` records (the
inference never runs for other types) and for keys held with truthy values:
whenever `merge_defaults` succeeds on a proxy record and the resulting
`httpClient.authentication` mapping holds a truthy username, password,
ntlmHost or ntlmDomain, its `type` is exactly `"ntlm"` or `"username"`.
(The later cleanup pass can remove these keys again only when
`legacy_field_map` names them.) -/
theorem C6_amended (repo gd td fd : Value) (rf : String) (lm : Value)
    (out : Value) (nf hcf af : List (String × Value))
    (hok : merge_defaults repo gd td fd "proxy" rf lm = Except.ok out)
    (hout : out = Value.obj nf)
    (hhc : objGet nf "httpClient" = some (Value.obj hcf))
    (hab : objGet hcf "authentication" = some (Value.obj af))
    (htruthy : (((objGet af "username").getD Value.null).truthy ||
      ((objGet af "password").getD Value.null).truthy ||
      ((objGet af "ntlmHost").getD Value.null).truthy ||
      ((objGet af "ntlmDomain").getD Value.null).truthy) = true) :
    objGet af "type" = some (Value.str "ntlm") ∨
    objGet af "type" = some (Value.str "username") := by
  subst hout
  obtain ⟨tda, m5, m6, hauth, hrev⟩ :=
    merge_defaults_steps_last (merge_defaults_ok_steps hok)
  rcases revertAuth_cases hrev with heq | ⟨nf6, hcf6, hm6, hhc6, heq⟩
  · subst heq
    exact authInference_out_typed hauth hhc hab htruthy
  · injection heq with heq
    have h1 : objGet nf "httpClient" = some (Value.obj
        (objSet hcf6 "authentication" Value.null)) := by
      rw [heq]
      exact objGet_objSet_self _ _ _
    rw [hhc] at h1
    injection h1 with h1
    injection h1 with h1
    have h2 : objGet hcf "authentication" = some Value.null := by
      rw [h1]
      exact objGet_objSet_self _ _ _
    rw [hab] at h2
    injection h2 with h2
    exact absurd h2 (by simp)


/-- C6 witness: the amended invariant at a concrete proxy record carrying
username and password. -/
theorem C6_amended_witness :
    objGet [("username", Value.str "u"), ("password", Value.str "p"),
      ("type", Value.str "username")] "type" =
      some (Value.str "ntlm") ∨
    objGet [("username", Value.str "u"), ("password", Value.str "p"),
      ("type", Value.str "username")] "type" =
      some (Value.str "username") :=
  C6_amended
    (Value.obj [("name", Value.str "r"), ("httpClient", Value.obj
      [("authentication", Value.obj [("username", Value.str "u"),
        ("password", Value.str "p")])])])
    (Value.obj []) (Value.obj []) (Value.obj []) "raw" (Value.obj [])
    (Value.obj [("name", Value.str "r"), ("httpClient", Value.obj
      [("authentication", Value.obj [("username", Value.str "u"),
        ("password", Value.str "p"), ("type", Value.str "username")])])])
    [("name", Value.str "r"), ("httpClient", Value.obj
      [("authentication", Value.obj [("username", Value.str "u"),
        ("password", Value.str "p"), ("type", Value.str "username")])])]
    [("authentication", Value.obj [("username", Value.str "u"),
      ("password", Value.str "p"), ("type", Value.str "username")])]
    [("username", Value.str "u"), ("password", Value.str "p"),
      ("type", Value.str "username")]
    rfl rfl rfl rfl rfl

/-- A successful merge into a dict destination yields a dict. -/
theorem mergeItems_ok_obj {src df : List (String × Value)} {r : Value}
    (h : mergeItems src (Value.obj df) = Except.ok r) :
    ∃ rF, r = Value.obj rF := by
  obtain ⟨rF, h2⟩ := mergeItems_obj_exists src (Value.obj df) rfl
  rw [h] at h2
  injection h2 with h2
  exact ⟨rF, h2⟩

/-- Step 3.5 touches only the `httpClient` key: every other key of a dict
that passes through it keeps its binding. -/
theorem fixAuthNone_preserve_get {rt : String} {nf : List (String × Value)}
    {r : Value} {k : String}
    (hok : fixAuthNone rt (Value.obj nf) = Except.ok r)
    (hk : k ≠ "httpClient") :
    ∃ rF, r = Value.obj rF ∧ objGet rF k = objGet nf k := by
  rcases fixAuthNone_shape hok with h | ⟨x, h⟩
  · exact ⟨nf, h, rfl⟩
  · exact ⟨_, h, objGet_objSet_ne _ _ _ _ (Ne.symm hk)⟩

/-- Step 6 touches only the `httpClient` key of the normalized dict. -/
theorem authInference_preserve_get {repo : Value} {rt : String}
    {nf : List (String × Value)} {r : Value} {k : String}
    (hok : authInference repo rt (Value.obj nf) = Except.ok r)
    (hk : k ≠ "httpClient") :
    ∃ rF, r = Value.obj rF ∧ objGet rF k = objGet nf k := by
  rcases authInference_shape hok with h | ⟨x, h⟩
  · exact ⟨nf, h, rfl⟩
  · exact ⟨_, h, objGet_objSet_ne _ _ _ _ (Ne.symm hk)⟩

/-- Step 7 touches only the `httpClient` key of the normalized dict. -/
theorem revertAuth_preserve_get {tda : Value} {rt : String}
    {nf : List (String × Value)} {r : Value} {k : String}
    (hok : revertAuth tda rt (Value.obj nf) = Except.ok r)
    (hk : k ≠ "httpClient") :
    ∃ rF, r = Value.obj rF ∧ objGet rF k = objGet nf k := by
  rcases revertAuth_shape hok with h | ⟨x, h⟩
  · exact ⟨nf, h, rfl⟩
  · exact ⟨_, h, objGet_objSet_ne _ _ _ _ (Ne.symm hk)⟩

/-- For a non-proxy repository type, step 3.5 is the identity. -/
theorem fixAuthNone_nonproxy {rt : String} {n : Value}
    (h : (rt == "proxy") = false) : fixAuthNone rt n = Except.ok n := by
  simp [fixAuthNone, h]

/-- For a non-proxy repository type, step 6 is the identity. -/
theorem authInference_nonproxy {repo : Value} {rt : String} {n : Value}
    (h : (rt == "proxy") = false) :
    authInference repo rt n = Except.ok n := by
  simp [authInference, h]

/-- For a non-proxy repository type, step 7 is the identity. -/
theorem revertAuth_nonproxy {tda : Value} {rt : String} {n : Value}
    (h : (rt == "proxy") = false) : revertAuth tda rt n = Except.ok n := by
  simp [revertAuth, h]

/-- A key that `objGet` misses is not among the dict keys. -/
theorem objGet_none_not_mem {fs : List (String × Value)} {k : String}
    (h : objGet fs k = none) : k ∉ fs.map Prod.fst := by
  induction fs with
  | nil => simp
  | cons p rest ih =>
      obtain ⟨k₀, v₀⟩ := p
      by_cases h0 : k₀ = k
      · subst h0
        simp [objGet] at h
      · simp [objGet, h0] at h
        intro hmem
        simp only [List.map_cons, List.mem_cons] at hmem
        rcases hmem with heq | hmem2
        · exact h0 heq.symm
        · exact ih h hmem2

/-- Any key bound to a non-dict value survives step 3.5 unchanged: if the
key is `httpClient` under type `proxy`, the step raises instead of
returning, so a successful step also certifies that the proxy/`httpClient`
combination did not occur. -/
theorem fixAuthNone_preserve_nonobj {rt : String}
    {nf : List (String × Value)} {r : Value} {k : String} {w : Value}
    (hok : fixAuthNone rt (Value.obj nf) = Except.ok r)
    (hget : objGet nf k = some w) (hw : w.isObj = false) :
    (∃ rF, r = Value.obj rF ∧ objGet rF k = some w) ∧
      (k ≠ "httpClient" ∨ (rt == "proxy") = false) := by
  by_cases hk : k = "httpClient"
  · subst hk
    cases hp : (rt == "proxy") with
    | false =>
        rw [fixAuthNone_nonproxy hp] at hok
        injection hok with hok
        exact ⟨⟨nf, hok.symm, hget⟩, Or.inr rfl⟩
    | true =>
        have hrt : rt = "proxy" := by simpa using hp
        subst hrt
        obtain ⟨e, he⟩ := fixAuthNone_nonobj_http hget hw
        rw [he] at hok
        exact absurd hok (by simp)
  · obtain ⟨rF, hr, hrg⟩ := fixAuthNone_preserve_get hok hk
    exact ⟨⟨rF, hr, by rw [hrg, hget]⟩, Or.inl hk⟩

/-- Steps 6 and 7 preserve the binding of any key other than `httpClient`,
and of every key when the repository type is not `proxy`. -/
theorem authTail_preserve_nonobj {repo tda : Value} {rt : String}
    {m5F : List (String × Value)} {m6 m : Value} {k : String} {w : Value}
    (h8 : authInference repo rt (Value.obj m5F) = Except.ok m6)
    (h9 : revertAuth tda rt m6 = Except.ok m)
    (hcase : k ≠ "httpClient" ∨ (rt == "proxy") = false)
    (hw : objGet m5F k = some w) :
    ∃ mF, m = Value.obj mF ∧ objGet mF k = some w := by
  rcases hcase with hk | hp
  · obtain ⟨m6F, h6eq, h6get⟩ := authInference_preserve_get h8 hk
    subst h6eq
    obtain ⟨mF, hmeq, hmget⟩ := revertAuth_preserve_get h9 hk
    exact ⟨mF, hmeq, by rw [hmget, h6get, hw]⟩
  · rw [authInference_nonproxy hp] at h8
    injection h8 with h8
    subst h8
    rw [revertAuth_nonproxy hp] at h9
    injection h9 with h9
    exact ⟨m5F, h9.symm, hw⟩

/-- When every legacy source read of the caller record comes back null
(the key is absent), a successful legacy pass writes nothing. -/
theorem legacyLoop_null_identity {repo : Value} {rt rf : String}
    {lmF : List (String × Value)} {n r : Value}
    (h : legacyLoop repo rt rf (Value.obj lmF) n = Except.ok r)
    (hnull : ∀ kv ∈ lmF, get_nested_value repo kv.1 = Value.null) :
    r = n := by
  simp only [legacyLoop] at h
  rcases legacyItems_null_reads lmF n hnull with hid | ⟨e, herr⟩
  · rw [hid] at h
    injection h with h
    exact h.symm
  · rw [herr] at h
    exact absurd h (by simp)

/-- The cleanup pass preserves a top-level key bound to a non-dict value
when no legacy key shares its name. -/
theorem cleanup_preserve_key {mF lmF : List (String × Value)} {out : Value}
    {k : String} {w : Value}
    (hc : enhanced_cleanup_legacy_attributes (Value.obj mF)
      (Value.obj lmF) = Except.ok out)
    (hget : objGet mF k = some w) (hw : w.isObj = false)
    (hlk : ∀ kv ∈ lmF, kv.1 ≠ k) :
    ∃ outF, out = Value.obj outF ∧ objGet outF k = some w := by
  simp only [enhanced_cleanup_legacy_attributes] at hc
  exact cleanupItems_preserves_key hget hw hlk hc

/-- C1 (amended): precedence over the default layers.  For a scalar field
defined in the global layer, the type layer and the format layer at once,
with no legacy entry naming the field and every legacy source read absent
from the caller record, a successful normalization returns the
format-default value for the field - unless the caller record defines the
field itself (as a non-dict value), in which case the caller value is
returned. -/
theorem C1_amended
    (repoF gF tF fF tdF fdF lmF : List (String × Value))
    (rt rf k : String) (vt vf : Value) (out : Value)
    (htd : objGet tdF rt = some (Value.obj tF))
    (hfd : objGet fdF rf = some (Value.obj fF))
    (_hg : objHasKey gF k = true)
    (ht : objGet tF k = some vt) (hvt : vt.isObj = false)
    (hf : objGet fF k = some vf) (hvf : vf.isObj = false)
    (hnodT : (tF.map Prod.fst).Nodup)
    (hnodF : (fF.map Prod.fst).Nodup)
    (hnodR : (repoF.map Prod.fst).Nodup)
    (hlnull : ∀ kv ∈ lmF,
      get_nested_value (Value.obj repoF) kv.1 = Value.null)
    (hlk : ∀ kv ∈ lmF, kv.1 ≠ k)
    (hok : normalize_and_clean_repositories_with_explicit_cleanup
      [Value.obj repoF] (Value.obj gF) (Value.obj tdF) (Value.obj fdF)
      rt rf (Value.obj lmF) = Except.ok [out]) :
    (objGet repoF k = none →
      ∃ outF, out = Value.obj outF ∧ objGet outF k = some vf) ∧
    (∀ vc, objGet repoF k = some vc → vc.isObj = false →
      ∃ outF, out = Value.obj outF ∧ objGet outF k = some vc) := by
  rcases hm : merge_defaults (Value.obj repoF) (Value.obj gF)
      (Value.obj tdF) (Value.obj fdF) rt rf (Value.obj lmF) with e | m
  · simp [normalize_and_clean_repositories_with_explicit_cleanup,
      Bind.bind, Except.bind, hm] at hok
  rcases hc : enhanced_cleanup_legacy_attributes m (Value.obj lmF) with
    e | c
  · simp [normalize_and_clean_repositories_with_explicit_cleanup,
      Bind.bind, Except.bind, hm, hc] at hok
  simp only [normalize_and_clean_repositories_with_explicit_cleanup,
    Bind.bind, Except.bind, hm, hc] at hok
  simp at hok
  rw [hok] at hc
  have hsteps := merge_defaults_ok_steps hm
  simp only [merge_defaults_steps, Bind.bind, Except.bind] at hsteps
  split at hsteps
  · simp at hsteps
  rename_i tda h1
  split at hsteps
  · simp at hsteps
  rename_i m2 h2
  split at hsteps
  · simp at hsteps
  rename_i fda h3
  split at hsteps
  · simp at hsteps
  rename_i m3 h4
  split at hsteps
  · simp at hsteps
  rename_i m4 h5
  split at hsteps
  · simp at hsteps
  rename_i m4l h6
  split at hsteps
  · simp at hsteps
  rename_i m5 h7
  split at hsteps
  · simp at hsteps
  rename_i m6 h8
  simp only [dictGet, htd, Option.getD, Except.ok.injEq] at h1
  subst h1
  simp only [merge_dict] at h2
  obtain ⟨m2F, hm2⟩ := mergeItems_ok_obj h2
  subst hm2
  have hk2 : objGet m2F k = some vt :=
    mergeItems_get_mem tF (Value.obj gF) gF m2F k vt rfl hnodT
      (objGet_mem ht) hvt h2
  simp only [dictGet, hfd, Option.getD, Except.ok.injEq] at h3
  subst h3
  simp only [merge_dict] at h4
  obtain ⟨m3F, hm3⟩ := mergeItems_ok_obj h4
  subst hm3
  have hk3 : objGet m3F k = some vf :=
    mergeItems_get_mem fF (Value.obj m2F) m2F m3F k vf rfl hnodF
      (objGet_mem hf) hvf h4
  obtain ⟨⟨m4F, hm4, hk4⟩, hcase⟩ := fixAuthNone_preserve_nonobj h5 hk3 hvf
  subst hm4
  have h6id := legacyLoop_null_identity h6 hlnull
  subst h6id
  simp only [merge_dict] at h7
  obtain ⟨m5F, hm5⟩ := mergeItems_ok_obj h7
  subst hm5
  have main : ∀ w : Value, w.isObj = false → objGet m5F k = some w →
      ∃ outF, out = Value.obj outF ∧ objGet outF k = some w := by
    intro w hwobj hw
    obtain ⟨mF, hmeq, hmk⟩ := authTail_preserve_nonobj h8 hsteps hcase hw
    subst hmeq
    exact cleanup_preserve_key hc hmk hwobj hlk
  constructor
  · intro hnone
    have habs : objGet m5F k = objGet m4F k :=
      mergeItems_get_absent repoF (Value.obj m4F) m4F m5F k rfl
        (objGet_none_not_mem hnone) h7
    exact main vf hvf (by rw [habs, hk4])
  · intro vc hvc hvcobj
    exact main vc hvcobj
      (mergeItems_get_mem repoF (Value.obj m4F) m4F m5F k vc rfl hnodR
        (objGet_mem hvc) hvcobj h7)

/-- C1 counterexample: caller wins is not the only exception to the
format-default rule.  The field `k` is defined in all three default layers
(format value `f`) and the caller record does not define `k`, yet the
output holds `x`: the legacy entry `old -> k` remaps the caller's `old`
value over the format default, refuting the claimed precedence law. -/
theorem C1_counterexample :
    normalize_and_clean_repositories_with_explicit_cleanup
      [Value.obj [("name", Value.str "r"), ("old", Value.str "x")]]
      (Value.obj [("k", Value.str "g")])
      (Value.obj [("hosted", Value.obj [("k", Value.str "t")])])
      (Value.obj [("raw", Value.obj [("k", Value.str "f")])])
      "hosted" "raw" (Value.obj [("old", Value.str "k")]) =
      Except.ok [Value.obj [("k", Value.str "x"),
        ("name", Value.str "r")]] ∧
    objGet [("k", Value.str "x"), ("name", Value.str "r")] "k" ≠
      some (Value.str "f") :=
  ⟨rfl, by simp [objGet]⟩

/-- C1 witness: a concrete three-layer bundle with an empty legacy map;
the output holds the format default for `k`. -/
theorem C1_amended_witness :
    ∃ outF, Value.obj [("k", Value.str "f"), ("name", Value.str "r")] =
        Value.obj outF ∧ objGet outF "k" = some (Value.str "f") :=
  (C1_amended [("name", Value.str "r")] [("k", Value.str "g")]
      [("k", Value.str "t")] [("k", Value.str "f")]
      [("hosted", Value.obj [("k", Value.str "t")])]
      [("raw", Value.obj [("k", Value.str "f")])] []
      "hosted" "raw" "k" (Value.str "t") (Value.str "f")
      (Value.obj [("k", Value.str "f"), ("name", Value.str "r")])
      rfl rfl rfl rfl rfl rfl rfl
      (by simp) (by simp) (by simp)
      (by simp) (by simp)
      rfl).1 rfl
